import Mathlib

set_option maxRecDepth 16000

/-!
# Verification of the Docco directive-expansion core

A shallow embedding of the directive-processing core of the Docco
markdown-to-PDF pipeline, together with proofs and refutations of the
frozen specification claims.

Strings are modelled as `List Char` (named `Str`).  Python's bounded
`while` loops and left-to-right regex scans are embedded as structurally
recursive functions over the character list; where a loop's progress is
not structural, an explicit fuel argument bounded by the string length
is used (each loop step consumes at least one character, so a fuel of
`length + 1` makes the embedding exact).

The regular expressions used by the source are simple enough that each
is hand-compiled to a dedicated matcher with Python `re` semantics
(leftmost match, alternation priority, greedy/lazy quantifiers,
`MULTILINE`/`DOTALL` flags) as noted at each definition.
-/

/-- Python strings, modelled as lists of characters. -/
abbrev Str := List Char

/-- `strStarts pat s`: `pat` is a prefix of `s`. -/
def strStarts : Str → Str → Bool
  | [], _ => true
  | _ :: _, [] => false
  | p :: ps, c :: cs => if p = c then strStarts ps cs else false

/-- Python `\s` on the ASCII range: blank, tab, newline, CR, vertical tab, form feed. -/
def pyIsSpace (c : Char) : Bool :=
  c = ' ' ∨ c = '\t' ∨ c = '\n' ∨ c = '\x0d' ∨ c = '\x0b' ∨ c = '\x0c'

/-- Python `\w` on the ASCII range: letters, digits, underscore. -/
def pyIsWord (c : Char) : Bool :=
  ('a' ≤ c ∧ c ≤ 'z') ∨ ('A' ≤ c ∧ c ≤ 'Z') ∨ ('0' ≤ c ∧ c ≤ '9') ∨ c = '_'

/-- Python `str.strip()`: drop leading and trailing whitespace. -/
def pyStrip (s : Str) : Str :=
  ((s.dropWhile pyIsSpace).reverse.dropWhile pyIsSpace).reverse

/-- Python `str.strip('\n')`: drop leading and trailing newline characters. -/
def pyStripNl (s : Str) : Str :=
  ((s.dropWhile (· = '\n')).reverse.dropWhile (· = '\n')).reverse

/-- Decimal digits of `n`, most significant first (auxiliary, fuel-driven). -/
def natCharsAux : Nat → Nat → Str → Str
  | 0, _, acc => acc
  | fuel + 1, n, acc =>
    let d := Char.ofNat (48 + n % 10)
    if n < 10 then d :: acc else natCharsAux fuel (n / 10) (d :: acc)

/-- Decimal representation of `n` as characters (Python `str(n)` for `n ≥ 0`). -/
def natChars (n : Nat) : Str := natCharsAux (n + 1) n []

/-- Python `s.replace(pat, repl)` for a non-empty `pat`: replace every
non-overlapping occurrence, scanning left to right.  Fuel-driven; each step
consumes at least one character of `s`. -/
def pyReplaceAux (pat repl : Str) : Nat → Str → Str
  | 0, s => s
  | fuel + 1, s =>
    match s with
    | [] => []
    | c :: cs =>
      if strStarts pat s ∧ pat ≠ [] then repl ++ pyReplaceAux pat repl fuel (s.drop pat.length)
      else c :: pyReplaceAux pat repl fuel cs

/-- Python `s.replace(pat, repl)` (for the non-empty patterns used here). -/
def pyReplace (s pat repl : Str) : Str := pyReplaceAux pat repl (s.length + 1) s

/-- `strContains s pat`: some position of `s` starts with `pat`
(Python `pat in s` for non-empty `pat`). -/
def strContains : Str → Str → Bool
  | s@(_ :: cs), pat => if strStarts pat s then true else strContains cs pat
  | [], _ => false

/-- Number of non-overlapping occurrences of a non-empty `pat` in `s`,
scanning left to right (Python `s.count(pat)`). -/
def countOccur (pat : Str) : Nat → Str → Nat
  | 0, _ => 0
  | fuel + 1, s =>
    match s with
    | [] => 0
    | _ :: cs =>
      if strStarts pat s ∧ pat ≠ [] then 1 + countOccur pat fuel (s.drop pat.length)
      else countOccur pat fuel cs

/-- Occurrence count of `pat` in `s` (used to count HTML tags in output). -/
def strCount (s pat : Str) : Nat := countOccur pat (s.length + 1) s

/-! ## Code Shield — `docco/directive_utils.py` / `docco/inline.py`

`extract_code_blocks` protects fenced code blocks and inline code spans by
replacing them with unique placeholder tokens; `restore_code_blocks` is a
literal placeholder→original substitution.  The same two functions appear
verbatim in `directive_utils.py` and `inline.py`. -/

/-- Placeholder `___FENCED_CODE_BLOCK_{n}___`. -/
def fencedPh (n : Nat) : Str :=
  "___FENCED_CODE_BLOCK_".toList ++ natChars n ++ "___".toList

/-- Placeholder `___INLINE_CODE_{n}___`. -/
def inlinePh (n : Nat) : Str :=
  "___INLINE_CODE_".toList ++ natChars n ++ "___".toList

/-- Lazy search for the closing ` ``` ` of a fenced block, i.e. the
continuation `.*?```(?:\n|$)` of the fenced pattern under
`DOTALL | MULTILINE`: at each position first try to close (a literal
` ``` ` followed either by a consumed `\n` or by the end of the string —
`$` before an interior non-newline fails, and before `\n` the `\n`-branch
has priority), otherwise grow the lazy body by one character (any
character: `DOTALL`).  Returns `(body, trailingNewlineConsumed, rest)`. -/
def fencedClose : Str → Option (Str × Bool × Str)
  | [] => none
  | c :: cs =>
    if c = '`' ∧ strStarts ['`', '`'] cs then
      match cs.drop 2 with
      | [] => some ([], false, [])
      | d :: ds =>
        if d = '\n' then some ([], true, ds)
        else (fencedClose cs).map fun (b, nl, rest) => (c :: b, nl, rest)
    else (fencedClose cs).map fun (b, nl, rest) => (c :: b, nl, rest)

/-- Attempt the fenced pattern `(?:^|\n)```.*?```(?:\n|$)` at one position.
`atLineStart` says whether the zero-width `^` holds here (`MULTILINE`:
position 0 or just after a newline); the `^` branch is tried before the
`\n`-consuming branch.  Returns `(leadingNewlineConsumed, body,
trailingNewlineConsumed, rest)`. -/
def matchFencedAt (atLineStart : Bool) (s : Str) : Option (Bool × Str × Bool × Str) :=
  let viaCaret : Option (Bool × Str × Bool × Str) :=
    if atLineStart ∧ strStarts ['`', '`', '`'] s then
      (fencedClose (s.drop 3)).map fun (b, nl, rest) => (false, b, nl, rest)
    else none
  match viaCaret with
  | some r => some r
  | none =>
    match s with
    | c :: cs =>
      if c = '\n' ∧ strStarts ['`', '`', '`'] cs then
        (fencedClose (cs.drop 3)).map fun (b, nl, rest) => (true, b, nl, rest)
      else none
    | [] => none

/-- The `re.sub` scan of the fenced pass with the `replace_fenced`
callback: store the match stripped of its captured newlines under a fresh
`___FENCED_CODE_BLOCK_i___` key, emit the placeholder with the structural
newlines preserved.  `atLineStart` tracks whether the current scan
position is at a line start of the original string.  Fuel-driven (every
step consumes at least one character). -/
def fencedScanAux : Nat → Bool → Str → Nat → List (Str × Str) → Str × Nat × List (Str × Str)
  | 0, _, s, ctr, blocks => (s, ctr, blocks)
  | fuel + 1, atStart, s, ctr, blocks =>
    match s with
    | [] => ([], ctr, blocks)
    | c :: cs =>
      match matchFencedAt atStart s with
      | some (lead, body, trail, rest) =>
        let original := (if lead then ['\n'] else []) ++ ['`', '`', '`'] ++ body
                          ++ ['`', '`', '`'] ++ (if trail then ['\n'] else [])
        let ph := fencedPh ctr
        let repl := (if lead then ['\n'] else []) ++ ph ++ (if trail then ['\n'] else [])
        let (out, ctr', blocks') :=
          fencedScanAux fuel trail rest (ctr + 1) (blocks ++ [(ph, pyStripNl original)])
        (repl ++ out, ctr', blocks')
      | none =>
        let (out, ctr', blocks') := fencedScanAux fuel (c = '\n') cs ctr blocks
        (c :: out, ctr', blocks')

/-- Attempt `````[^`]*````` (the four-backtick inline pattern) at one
position: four backticks, a greedy run of non-backticks, four backticks.
Returns `(wholeMatch, rest)`. -/
def matchInline4 (s : Str) : Option (Str × Str) :=
  if strStarts ['`', '`', '`', '`'] s then
    let body := (s.drop 4).takeWhile (· ≠ '`')
    let rest := (s.drop 4).dropWhile (· ≠ '`')
    if strStarts ['`', '`', '`', '`'] rest then
      some (['`', '`', '`', '`'] ++ body ++ ['`', '`', '`', '`'], rest.drop 4)
    else none
  else none

/-- `true` iff the next character is a backtick (the negated lookahead
`(?!`)` fails exactly here). -/
def nextIsTick : Str → Bool
  | c :: _ => c = '`'
  | [] => false

/-- Lazy search for the close of an `n`-backtick inline span, i.e. the
continuation `.*?X(?!`)` where `X` is `n` backticks and `.` does not
match newline: at each position first try to close, otherwise grow the
body by one non-newline character.  Returns `(body, rest)`. -/
def inlineCloseN (n : Nat) : Str → Option (Str × Str)
  | [] => none
  | c :: cs =>
    if strStarts (List.replicate n '`') (c :: cs) ∧ nextIsTick ((c :: cs).drop n) = false then
      some ([], (c :: cs).drop n)
    else if c = '\n' then none
    else (inlineCloseN n cs).map fun (b, rest) => (c :: b, rest)

/-- Attempt `X(?!`).*?X(?!`)` (the `n`-backtick inline pattern, `n` ∈
{1,2,3}) at one position.  Returns `(wholeMatch, rest)`. -/
def matchInlineN (n : Nat) (s : Str) : Option (Str × Str) :=
  if strStarts (List.replicate n '`') s ∧ nextIsTick (s.drop n) = false then
    (inlineCloseN n (s.drop n)).map fun (b, rest) =>
      (List.replicate n '`' ++ b ++ List.replicate n '`', rest)
  else none

/-- The `re.sub` scan of one inline pass with the `replace_inline`
callback: store the whole match under a fresh `___INLINE_CODE_i___` key
and emit the placeholder.  Fuel-driven. -/
def inlineScanAux (matcher : Str → Option (Str × Str)) :
    Nat → Str → Nat → List (Str × Str) → Str × Nat × List (Str × Str)
  | 0, s, ctr, blocks => (s, ctr, blocks)
  | fuel + 1, s, ctr, blocks =>
    match s with
    | [] => ([], ctr, blocks)
    | c :: cs =>
      match matcher s with
      | some (g0, rest) =>
        let ph := inlinePh ctr
        let (out, ctr', blocks') := inlineScanAux matcher fuel rest (ctr + 1) (blocks ++ [(ph, g0)])
        (ph ++ out, ctr', blocks')
      | none =>
        let (out, ctr', blocks') := inlineScanAux matcher fuel cs ctr blocks
        (c :: out, ctr', blocks')

/-- `extract_code_blocks(content)`: first protect fenced blocks, then
inline code from the widest backtick run (4) down to the narrowest (1),
sharing one placeholder counter; returns the content with placeholders
and the placeholder table (a Python dict in insertion order). -/
def extract_code_blocks (content : Str) : Str × List (Str × Str) :=
  let (t0, c0, b0) := fencedScanAux (content.length + 1) true content 0 []
  let (t1, c1, b1) := inlineScanAux matchInline4 (t0.length + 1) t0 c0 b0
  let (t2, c2, b2) := inlineScanAux (matchInlineN 3) (t1.length + 1) t1 c1 b1
  let (t3, c3, b3) := inlineScanAux (matchInlineN 2) (t2.length + 1) t2 c2 b2
  let (t4, _, b4) := inlineScanAux (matchInlineN 1) (t3.length + 1) t3 c3 b3
  (t4, b4)

/-- `restore_code_blocks(content, code_blocks)`: for each table entry in
insertion order, replace every occurrence of the placeholder by the
stored original. -/
def restore_code_blocks (content : Str) (code_blocks : List (Str × Str)) : Str :=
  code_blocks.foldl (fun acc pair => pyReplace acc pair.1 pair.2) content

example : extract_code_blocks "abc".toList = ("abc".toList, []) := by decide

example :
    restore_code_blocks (extract_code_blocks "a `b` c".toList).1
      (extract_code_blocks "a `b` c".toList).2 = "a `b` c".toList := by decide

/-! ## Iterative Expansion Driver — `docco/parser.py` -/

/-- `MAX_ITERATIONS` from `parser.py`. -/
def MAX_ITERATIONS : Nat := 10

/-- Does the inline-directive pattern `<!--\s*inline\s*:` match at this
position?  (Greedy `\s*` followed by a literal is exact here: shortening
the whitespace run leaves a whitespace character where the literal's
first character is required.) -/
def inlineMarkerAt (s : Str) : Bool :=
  strStarts "<!--".toList s ∧
    (let t := (s.drop 4).dropWhile pyIsSpace
     strStarts "inline".toList t ∧
       (let u := (t.drop 6).dropWhile pyIsSpace
        strStarts [':'] u))

/-- `re.search(r"<!--\s*inline\s*:", s)`: does any position match? -/
def searchInlineMarker : Str → Bool
  | [] => false
  | c :: cs => if inlineMarkerAt (c :: cs) then true else searchInlineMarker cs

/-- `has_directives(content)`: protect code blocks, then search for the
inline-directive marker. -/
def has_directives (content : Str) : Bool :=
  searchInlineMarker (extract_code_blocks content).1

/-- The `while` loop of `process_directives_iteratively`, threading the
iteration counter; `step` is the (fallible) `process_inlines` pass, whose
exception propagates.  Fuel-driven; the loop condition `iteration <
MAX_ITERATIONS` bounds the iteration count, so fuel `MAX_ITERATIONS`
makes the embedding exact when started at `iteration = 0`. -/
def processLoop (step : Str → Except Str Str) :
    Nat → Nat → Str → Except Str (Nat × Str)
  | 0, iteration, content => .ok (iteration, content)
  | fuel + 1, iteration, content =>
    if has_directives content ∧ iteration < MAX_ITERATIONS then
      match step content with
      | .error e => .error e
      | .ok content' => processLoop step fuel (iteration + 1) content'
    else .ok (iteration, content)

/-- The `ValueError` message raised when the iteration budget is exceeded. -/
def maxIterMsg : Str := "Max iterations (10) exceeded in directive processing".toList

/-- `process_directives_iteratively(content, ...)`: run the loop, then
raise if the budget was used up and directives still remain. -/
def process_directives_iteratively (step : Str → Except Str Str) (content : Str) :
    Except Str Str :=
  match processLoop step MAX_ITERATIONS 0 content with
  | .error e => .error e
  | .ok (iteration, c) =>
    if MAX_ITERATIONS ≤ iteration ∧ has_directives c then .error maxIterMsg
    else .ok c

/-! ## Language Filter — `docco/language.py` -/

/-- Greedy `\s*` starting a given suffix: drop the maximal whitespace
run.  (Exact without backtracking when followed by a non-whitespace
literal, as in all uses here.) -/
def dropSpaces (s : Str) : Str := s.dropWhile pyIsSpace

/-- Greedy `\w+`: the maximal non-empty word-character run and the rest.
(Exact without backtracking when followed by `\s*` plus a non-word,
non-whitespace literal, as in all uses here.) -/
def takeWord (s : Str) : Option (Str × Str) :=
  let w := s.takeWhile pyIsWord
  if w = [] then none else some (w, s.dropWhile pyIsWord)

/-- Attempt the opening `<!--\s*lang:(\w+)\s*-->` of a language block at
one position.  Returns `(languageCode, rest)`. -/
def langOpenAt (s : Str) : Option (Str × Str) :=
  if strStarts "<!--".toList s then
    let t := dropSpaces (s.drop 4)
    if strStarts "lang:".toList t then
      match takeWord (t.drop 5) with
      | some (w, u) =>
        let v := dropSpaces u
        if strStarts "-->".toList v then some (w, v.drop 3) else none
      | none => none
    else none
  else none

/-- Attempt the closing `<!--\s*/lang\s*-->` at one position.  Returns
the rest after the marker. -/
def langCloseAt (s : Str) : Option Str :=
  if strStarts "<!--".toList s then
    let t := dropSpaces (s.drop 4)
    if strStarts "/lang".toList t then
      let v := dropSpaces (t.drop 5)
      if strStarts "-->".toList v then some (v.drop 3) else none
    else none
  else none

/-- Lazy `(.*?)` (under `DOTALL`) up to the closing language marker: at
each position first try to close, otherwise grow the body.  Returns
`(body, rest)`. -/
def langBody : Str → Option (Str × Str)
  | [] => none
  | c :: cs =>
    match langCloseAt (c :: cs) with
    | some rest => some ([], rest)
    | none => (langBody cs).map fun (b, rest) => (c :: b, rest)

/-- Attempt the whole language-block pattern
`<!--\s*lang:(\w+)\s*-->(.*?)<!--\s*/lang\s*-->` at one position.
Returns `(languageCode, body, rest)`. -/
def matchLangAt (s : Str) : Option (Str × Str × Str) :=
  match langOpenAt s with
  | some (code, t) => (langBody t).map fun (b, rest) => (code, b, rest)
  | none => none

/-- The `re.sub` scan over language blocks: a block whose code equals the
target language is replaced by its body, any other block by the empty
string.  Fuel-driven. -/
def langScanAux (target : Str) : Nat → Str → Str
  | 0, s => s
  | fuel + 1, s =>
    match s with
    | [] => []
    | c :: cs =>
      match matchLangAt s with
      | some (code, body, rest) =>
        (if code = target then body else []) ++ langScanAux target fuel rest
      | none => c :: langScanAux target fuel cs

/-- `re.sub(r'\n\n\n+', '\n\n', s)`: collapse every maximal run of three
or more newlines to exactly two.  Fuel-driven. -/
def collapseNl : Nat → Str → Str
  | 0, s => s
  | fuel + 1, s =>
    match s with
    | [] => []
    | c :: cs =>
      if strStarts ['\n', '\n', '\n'] s then
        '\n' :: '\n' :: collapseNl fuel (s.dropWhile (· = '\n'))
      else c :: collapseNl fuel cs

/-- The final cleanup of `filter_content_by_language`: collapse newline
runs, then `result.strip() + "\n"` when non-blank, else the empty string. -/
def langCleanup (s : Str) : Str :=
  let collapsed := collapseNl (s.length + 1) s
  if pyStrip collapsed = [] then [] else pyStrip collapsed ++ ['\n']

/-- `filter_content_by_language(content, target_lang)`: shield code
blocks, substitute language blocks, restore code blocks, collapse
newline runs, and strip with a trailing newline. -/
def filter_content_by_language (content : Str) (target_lang : Str) : Str :=
  let (protected_content, code_blocks) := extract_code_blocks content
  let result := langScanAux target_lang (protected_content.length + 1) protected_content
  let result := restore_code_blocks result code_blocks
  langCleanup result

example :
    filter_content_by_language "pre <!-- lang:EN -->body<!-- /lang --> post".toList "EN".toList
      = "pre body post\n".toList := by decide

example :
    filter_content_by_language "pre <!-- lang:EN -->body<!-- /lang --> post".toList "DE".toList
      = "pre  post\n".toList := by decide

example : has_directives "<!-- inline: \"x.md\" -->".toList = true := by decide

example : has_directives "`<!-- inline: \"x.md\" -->`".toList = false := by decide

/-! ## Inline file directives — `docco/inline.py`

`process_inlines` expands `<!-- inline:"path" arg="v" -->` directives by
reading (or, for `.py`, executing) the referenced file.  The filesystem
is modelled as a partial map from full paths to file contents
(`os.path.exists` = the map is defined; `open(...).read()` = its value),
and the `exec` of a Python file as an uninterpreted fallible function
`pyExec` (its stdout on success).  A raised exception is an
`Except.error` carrying the exception message. -/

/-- Association lookup with Python `dict` semantics (`d.get(k)`). -/
def alookup : List (Str × Str) → Str → Option Str
  | [], _ => none
  | (k, v) :: rest, key => if k = key then some v else alookup rest key

/-- Python `d[k] = v`: overwrite in place if the key exists, else append. -/
def dictInsert : List (Str × Str) → Str → Str → List (Str × Str)
  | [], k, v => [(k, v)]
  | (k', v') :: rest, k, v =>
    if k' = k then (k', v) :: rest else (k', v') :: dictInsert rest k v

/-- Attempt the argument pattern `(\w+)="([^"]*)"` at one position.
Returns `(key, value, rest)`. -/
def argPairAt (s : Str) : Option (Str × Str × Str) :=
  match takeWord s with
  | some (k, t) =>
    if strStarts ['=', '"'] t then
      let v := (t.drop 2).takeWhile (· ≠ '"')
      let r := (t.drop 2).dropWhile (· ≠ '"')
      if r ≠ [] then some (k, v, r.drop 1) else none
    else none
  | none => none

/-- The `re.findall` scan of `parse_inline_args`, accumulating a dict. -/
def argsScanAux : Nat → Str → List (Str × Str) → List (Str × Str)
  | 0, _, acc => acc
  | fuel + 1, s, acc =>
    match s with
    | [] => acc
    | _ :: cs =>
      match argPairAt s with
      | some (k, v, rest) => argsScanAux fuel rest (dictInsert acc k v)
      | none => argsScanAux fuel cs acc

/-- `parse_inline_args(args_str)`. -/
def parse_inline_args (s : Str) : List (Str × Str) := argsScanAux (s.length + 1) s []

/-- Lowercasing (Python `str.lower()` on the ASCII range). -/
def toLowerStr (s : Str) : Str := s.map Char.toLower

/-- Last index of `s` at which `pat` starts (Python `str.rfind` for a
non-empty `pat`), or `none`. -/
def rfindSubAux : Str → Str → Nat → Option Nat → Option Nat
  | [], _, _, best => best
  | c :: cs, pat, i, best =>
    rfindSubAux cs pat (i + 1) (if strStarts pat (c :: cs) then some i else best)

/-- Python `s.rfind(pat)` (as an `Option`; `-1` becomes `none`). -/
def rfindSub (s pat : Str) : Option Nat := rfindSubAux s pat 0 none

/-- `os.path.splitext` restricted to its extension component, lowercased:
`get_file_type(filepath)`.  The extension starts at the last dot of the
final path component, unless that component consists only of leading
dots up to there. -/
def get_file_type (p : Str) : Str :=
  let slashIdx : Nat := match rfindSub p ['/'] with | some i => i + 1 | none => 0
  let base := p.drop slashIdx
  match rfindSub base ['.'] with
  | some dotIdx =>
    if (base.take dotIdx).any (· ≠ '.') then toLowerStr (base.drop dotIdx) else []
  | none => []

/-- `os.path.join(base_dir, filepath)` for the POSIX cases exercised
here: an absolute second component wins, otherwise concatenate with a
single separator. -/
def pyJoin (b f : Str) : Str :=
  if strStarts ['/'] f then f
  else if b = [] then f
  else if b.getLast? = some '/' then b ++ f
  else b ++ ['/'] ++ f

/-- Python `s.split('\n')`. -/
def splitNl : Str → List Str
  | [] => [[]]
  | c :: cs =>
    match splitNl cs with
    | [] => [[c]]
    | h :: t => if c = '\n' then [] :: h :: t else (c :: h) :: t

/-- `trim_html_lines(content)`: strip every line, keeping line structure. -/
def trim_html_lines (s : Str) : Str :=
  List.intercalate ['\n'] ((splitNl s).map pyStrip)

/-- `post_process_content`: `.md` unchanged, `.html` line-trimmed, other
extensions inserted as-is (with a logged warning, which has no effect on
the returned text). -/
def post_process_content (content file_path : Str) : Str :=
  let ft := get_file_type file_path
  if ft = ".md".toList then content
  else if ft = ".html".toList then trim_html_lines content
  else content

/-- The placeholder-substitution loop of `process_inlines`: for each
supplied argument in dict order, if `{{key}}` occurs in the file content,
replace all its occurrences by the value.  (The `used_args` /
`placeholders` bookkeeping only feeds logged warnings and does not affect
the returned text.) -/
def substArgs (file_content : Str) (args : List (Str × Str)) : Str :=
  args.foldl
    (fun acc kv =>
      let ph := "\x7b\x7b".toList ++ kv.1 ++ "\x7d\x7d".toList
      if strContains acc ph then pyReplace acc ph kv.2 else acc)
    file_content

/-- `execute_python_file`: refuse without the `allow_python` capability;
otherwise run the uninterpreted `exec` model, wrapping its failure in a
`ValueError` and stripping its captured stdout. -/
def execute_python_file (pyExec : Str → List (Str × Str) → Except Str Str)
    (filepath : Str) (allowPython : Bool) (args : List (Str × Str)) : Except Str Str :=
  if allowPython = false then
    .error ("Python file execution not allowed: ".toList ++ filepath
              ++ ". Use --allow-python flag.".toList)
  else
    match pyExec filepath args with
    | .error e => .error ("Python execution error in ".toList ++ filepath ++ ": ".toList ++ e)
    | .ok out => .ok (pyStrip out)

/-- Attempt the file-inline pattern
`<!--\s*inline\s*:\s*"([^"]+)"(.*?)-->` at one position (`.` does not
match newline, so the directive closes on the same line).  Returns
`(filepath, argsGroup, rest)`. -/
def matchInlineDirAt (s : Str) : Option (Str × Str × Str) :=
  if strStarts "<!--".toList s then
    let t := dropSpaces (s.drop 4)
    if strStarts "inline".toList t then
      let u := dropSpaces (t.drop 6)
      if strStarts [':'] u then
        let v := dropSpaces (u.drop 1)
        if strStarts ['"'] v then
          let fp := (v.drop 1).takeWhile (· ≠ '"')
          let w := (v.drop 1).dropWhile (· ≠ '"')
          if fp ≠ [] ∧ w ≠ [] then
            (inlineDirTail (w.drop 1)).map fun (g2, rest) => (fp, g2, rest)
          else none
        else none
      else none
    else none
  else none
where
  /-- Lazy `(.*?)` (no `DOTALL`) up to the closing `-->`. -/
  inlineDirTail : Str → Option (Str × Str)
    | [] => none
    | c :: cs =>
      if strStarts "-->".toList (c :: cs) then some ([], (c :: cs).drop 3)
      else if c = '\n' then none
      else (inlineDirTail cs).map fun (g, r) => (c :: g, r)

/-- The body of `replace_inline` for one matched directive: resolve the
path, fail with `FileNotFoundError` when the file does not exist,
execute `.py` files, otherwise substitute arguments and post-process. -/
def replaceInlineDir (fs : Str → Option Str)
    (pyExec : Str → List (Str × Str) → Except Str Str)
    (baseDir : Str) (allowPython : Bool)
    (filepath argsGroup : Str) : Except Str Str :=
  let full_path := pyJoin baseDir filepath
  match fs full_path with
  | none => .error ("Inline file not found: ".toList ++ filepath)
  | some file_content =>
    let args := parse_inline_args (pyStrip argsGroup)
    if get_file_type full_path = ".py".toList then
      execute_python_file pyExec full_path allowPython args
    else
      .ok (post_process_content (substArgs file_content args) full_path)

/-- The `re.sub` scan of `process_inlines` over the protected content; a
raised exception aborts the whole substitution.  Fuel-driven. -/
def inlineDirScanAux (fs : Str → Option Str)
    (pyExec : Str → List (Str × Str) → Except Str Str)
    (baseDir : Str) (allowPython : Bool) : Nat → Str → Except Str Str
  | 0, s => .ok s
  | fuel + 1, s =>
    match s with
    | [] => .ok []
    | c :: cs =>
      match matchInlineDirAt s with
      | some (fp, g2, rest) =>
        match replaceInlineDir fs pyExec baseDir allowPython fp g2 with
        | .error e => .error e
        | .ok repl =>
          match inlineDirScanAux fs pyExec baseDir allowPython fuel rest with
          | .error e => .error e
          | .ok out => .ok (repl ++ out)
      | none =>
        match inlineDirScanAux fs pyExec baseDir allowPython fuel cs with
        | .error e => .error e
        | .ok out => .ok (c :: out)

/-- `process_inlines(content, base_dir, allow_python)`: shield code
blocks, expand every file-inline directive, restore code blocks. -/
def process_inlines (fs : Str → Option Str)
    (pyExec : Str → List (Str × Str) → Except Str Str)
    (content baseDir : Str) (allowPython : Bool) : Except Str Str :=
  let (protected_content, code_blocks) := extract_code_blocks content
  match inlineDirScanAux fs pyExec baseDir allowPython
      (protected_content.length + 1) protected_content with
  | .error e => .error e
  | .ok result => .ok (restore_code_blocks result code_blocks)

/-! ## Template Expander — `docco/content/commands.py`

`InlineProcessor._render_inline` renders a named template.  The
`inlines/` template directory is modelled as a partial map from template
names to file contents (`_load_template`, whose per-instance cache is
observationally the identity), and the recursive
`_process_recursive` call is abstracted as the function parameter
`processRec`, exactly as `self._process_recursive` is a parameter of the
method through `self`. -/

/-- The variable substitution `re.sub(r'\{\{(\w+)\}\}', ...)` of
`_render_inline`: an unmatched variable is replaced by the empty string
(`args.get(var_name, '')`).  Fuel-driven. -/
def varSubAux (args : List (Str × Str)) : Nat → Str → Str
  | 0, s => s
  | fuel + 1, s =>
    match s with
    | [] => []
    | c :: cs =>
      match varAt s with
      | some (v, rest) => (alookup args v).getD [] ++ varSubAux args fuel rest
      | none => c :: varSubAux args fuel cs
where
  /-- Attempt `\{\{(\w+)\}\}` at one position. -/
  varAt (s : Str) : Option (Str × Str) :=
    if strStarts ['{', '{'] s then
      match takeWord (s.drop 2) with
      | some (w, t) => if strStarts ['}', '}'] t then some (w, t.drop 2) else none
      | none => none
    else none

/-- `{{var}}` substitution over a whole template. -/
def varSub (template : Str) (args : List (Str × Str)) : Str :=
  varSubAux args (template.length + 1) template

/-- `InlineProcessor._render_inline(inline_name, args, original, depth)`:
a missing template leaves the original directive text untouched;
otherwise substitute variables and recurse below the depth limit. -/
def render_inline (templates : Str → Option Str) (processRec : Str → Nat → Str)
    (max_depth : Nat) (inline_name : Str) (args : List (Str × Str))
    (original : Str) (depth : Nat) : Str :=
  match templates inline_name with
  | none => original
  | some template =>
    let rendered := varSub template args
    if depth < max_depth then processRec rendered depth else rendered

example :
    process_inlines (fun _ => none) (fun _ _ => .error [])
        "<!-- inline:\"missing.md\" -->".toList "/doc".toList false
      = .error "Inline file not found: missing.md".toList := by rfl

/-! ## TOC Builder — `docco/toc.py` -/

/-- `_strip_html_tags`: `re.sub(r"<[^>]+>", "", text)`.  Fuel-driven. -/
def stripHtmlTagsAux : Nat → Str → Str
  | 0, s => s
  | fuel + 1, s =>
    match s with
    | [] => []
    | c :: cs =>
      if c = '<' ∧ cs.takeWhile (· ≠ '>') ≠ [] ∧ cs.dropWhile (· ≠ '>') ≠ [] then
        stripHtmlTagsAux fuel ((cs.dropWhile (· ≠ '>')).drop 1)
      else c :: stripHtmlTagsAux fuel cs

/-- `_strip_html_tags(text)`. -/
def strip_html_tags (s : Str) : Str := stripHtmlTagsAux (s.length + 1) s

/-- `_update_counters(counters, level)`: increment `counters[level-1]`,
zero every counter at indices `level..5`, and format the dot-joined
non-zero counters of levels `1..level`, with a trailing blank when
non-empty. -/
def update_counters (counters : List Nat) (level : Nat) : List Nat × Str :=
  let c1 := counters.set (level - 1) (counters.getD (level - 1) 0 + 1)
  let c2 := (List.range 6).foldl (fun acc i => if level ≤ i then acc.set i 0 else acc) c1
  let parts := (List.range level).filterMap fun i =>
    if 0 < c2.getD i 0 then some (natChars (c2.getD i 0)) else none
  let number := List.intercalate ['.'] parts
  (c2, if number = [] then [] else number ++ [' '])

/-- The `<ul class="toc-level-{n}">` opening tag. -/
def ulOpenTag (n : Nat) : Str :=
  "<ul class=\"toc-level-".toList ++ natChars n ++ "\">".toList

/-- `_close_lists_up_to(toc_lines, current_level, target_level, li_open)`:
close `</li>`/`</ul>` pairs while above the target level; after closing a
nested list the parent `<li>` is considered open again (when not at the
root). -/
def close_lists_up_to : List Str → Nat → Nat → Bool → List Str × Nat × Bool
  | lines, 0, _, liOpen => (lines, 0, liOpen)
  | lines, cl + 1, target, liOpen =>
    if target < cl + 1 then
      let lines := if liOpen then lines ++ ["</li>".toList] else lines
      let lines := lines ++ ["</ul>".toList]
      close_lists_up_to lines cl target (decide (0 < cl))
    else (lines, cl + 1, liOpen)

/-- The `while` loop of `_open_lists_down_to`, driven by the level gap. -/
def openListsAux : Nat → List Str → Nat → List Str × Nat
  | 0, lines, cl => (lines, cl)
  | gap + 1, lines, cl => openListsAux gap (lines ++ [ulOpenTag (cl + 1)]) (cl + 1)

/-- `_open_lists_down_to(toc_lines, current_level, target_level)`. -/
def open_lists_down_to (lines : List Str) (currentLevel targetLevel : Nat) :
    List Str × Nat :=
  openListsAux (targetLevel - currentLevel) lines currentLevel

/-- The `<li><a href="#id"><span class="toc-number">N </span>text</a>` line. -/
def tocLiLine (headingId number displayText : Str) : Str :=
  "<li><a href=\"#".toList ++ headingId ++ "\"><span class=\"toc-number\">".toList
    ++ number ++ "</span>".toList ++ displayText ++ "</a>".toList

/-- One step of the heading loop of `_build_toc_html`. -/
def tocStep (st : List Str × Nat × Bool × List Nat) (h : Nat × Str × Str) :
    List Str × Nat × Bool × List Nat :=
  let (lines, currentLevel, liOpen, counters) := st
  let (level, headingId, text) := h
  let displayText := strip_html_tags text
  let (counters, number) := update_counters counters level
  let (lines, currentLevel, liOpen) :=
    if level < currentLevel then close_lists_up_to lines currentLevel level liOpen
    else (lines, currentLevel, liOpen)
  -- the `li_open = False` store here is dead: it is overwritten to `True` below
  let (lines, _) :=
    if currentLevel = level ∧ liOpen then (lines ++ ["</li>".toList], false)
    else (lines, liOpen)
  let (lines, currentLevel) :=
    if currentLevel = 0 then (lines ++ [ulOpenTag level], level)
    else if currentLevel < level then open_lists_down_to lines currentLevel level
    else (lines, currentLevel)
  (lines ++ [tocLiLine headingId number displayText], currentLevel, true, counters)

/-- The closing loop at the end of `_build_toc_html`: close any open
`<li>`, close the `<ul>`, step one level up, and mark the parent `<li>`
open when not yet at the root. -/
def tocFinalClose : List Str → Nat → Bool → List Str
  | lines, 0, _ => lines
  | lines, cl + 1, liOpen =>
    let lines := if liOpen then lines ++ ["</li>".toList] else lines
    let lines := lines ++ ["</ul>".toList]
    tocFinalClose lines cl (decide (0 < cl))

/-- `_build_toc_html(headings)` over `(level, id, text)` triples. -/
def build_toc_html (headings : List (Nat × Str × Str)) : Str :=
  if headings = [] then
    "<nav class=\"toc\"><p>No headings found</p></nav>".toList
  else
    let init : List Str × Nat × Bool × List Nat :=
      (["<nav class=\"toc\">".toList], 0, false, [0, 0, 0, 0, 0, 0])
    let (lines, currentLevel, liOpen, _) := headings.foldl tocStep init
    let lines := tocFinalClose lines currentLevel liOpen
    List.intercalate ['\n'] (lines ++ ["</nav>".toList])

/-! ## Section model and numbering — `docco/core/section.py`

The snapshot's `Section` dataclass has exactly the fields `level`,
`title`, `content`, `number`, `orientation` — note that it has *no*
`exclude_from_toc` field, although its caller
(`content/markdown_parser.py`) passes one (see `sectionCtorCall`
below).  `mkSection` embeds construction through the generated
`__init__` followed by `__post_init__`; a raised `ValueError` is an
`Except.error`. -/

/-- The `Orientation` string enum (named `Orient`; Mathlib already uses the name `Orientation`). -/
inductive Orient where
  | portrait
  | landscape
deriving DecidableEq, Repr

/-- The value of an `Orientation` member (`Orientation.PORTRAIT == "portrait"`). -/
def Orient.value : Orient → Str
  | .portrait => "portrait".toList
  | .landscape => "landscape".toList

/-- Enum lookup by value: `Orientation(s)`. -/
def orientationOfValue (s : Str) : Option Orient :=
  if s = "portrait".toList then some .portrait
  else if s = "landscape".toList then some .landscape
  else none

/-- The `orientation` argument of `Section`: an enum member or a raw
string (`Union[Orientation, str]`). -/
inductive OrientArg where
  | enum (o : Orient)
  | str (s : Str)

/-- A document section. -/
structure Sect where
  level : Int
  title : Str
  content : Str
  number : Option Str
  orientation : Orient
deriving DecidableEq, Repr

/-- Decimal representation of an integer (Python `str(i)`). -/
def intChars (i : Int) : Str :=
  if i < 0 then '-' :: natChars i.natAbs else natChars i.toNat

/-- `Section(...)` construction followed by `__post_init__` validation:
level must lie in `[0,3]`, the title must be non-empty, and a string
orientation must be a valid `Orientation` value. -/
def mkSection (level : Int) (title content : Str) (number : Option Str)
    (orientation : OrientArg) : Except Str Sect :=
  if level < 0 ∨ 3 < level then
    .error ("Section level must be 0-3, got ".toList ++ intChars level)
  else if title = [] then
    .error "Section title cannot be empty".toList
  else
    match orientation with
    | .enum o => .ok ⟨level, title, content, number, o⟩
    | .str s =>
      match orientationOfValue s with
      | some o => .ok ⟨level, title, content, number, o⟩
      | none =>
        .error ("Orientation must be Orientation.PORTRAIT or Orientation.LANDSCAPE, got ".toList ++ s)

/-- The `SectionNumberer` state: three level counters and the addendum
letter counter. -/
structure NumState where
  counters : List Nat
  addendum_counter : Nat
deriving DecidableEq, Repr

/-- A fresh `SectionNumberer()`. -/
def freshNumberer : NumState := ⟨[0, 0, 0], 0⟩

/-- `SectionNumberer.number_section(section)`: addendum sections (level
0) advance the letter counter; otherwise increment the counter at the
section's level, zero all deeper counters, and join the non-zero
counters up to that level with dots. -/
def number_section (st : NumState) (s : Sect) : NumState × Str :=
  if s.level = 0 then
    let ac := st.addendum_counter + 1
    ({ st with addendum_counter := ac }, [Char.ofNat (64 + ac)])
  else
    let levelIdx := (s.level - 1).toNat
    let c1 := st.counters.set levelIdx (st.counters.getD levelIdx 0 + 1)
    let c2 := (List.range c1.length).foldl
      (fun acc i => if levelIdx + 1 ≤ i then acc.set i 0 else acc) c1
    let parts := (c2.take s.level.toNat).filter (0 < ·) |>.map natChars
    ({ st with counters := c2 }, List.intercalate ['.'] parts)

/-- `SectionNumberer.number_sections(sections)`: number a list of
sections in order, populating `section.number`. -/
def number_sections (st : NumState) (sections : List Sect) : NumState × List Sect :=
  sections.foldl
    (fun (acc : NumState × List Sect) s =>
      let (st', n) := number_section acc.1 s
      (st', acc.2 ++ [{ s with number := some n }]))
    (st, [])

example :
    (number_sections freshNumberer
        [⟨1, ['A'], [], none, .portrait⟩, ⟨2, ['B'], [], none, .portrait⟩,
         ⟨2, ['C'], [], none, .portrait⟩, ⟨1, ['D'], [], none, .portrait⟩]).2.map
        Sect.number
      = [some ['1'], some "1.1".toList, some "1.2".toList, some ['2']] := by decide

example :
    strCount (build_toc_html [(1, "h1".toList, "Chapter".toList),
        (3, "h3".toList, "Subsection".toList)]) "<li>".toList = 2 := by decide

example :
    strCount (build_toc_html [(1, "h1".toList, "Chapter".toList),
        (3, "h3".toList, "Subsection".toList)]) "</li>".toList = 3 := by decide

/-! ## Markdown document parsing — `docco/content/markdown_parser.py`

`MarkdownDocumentParser.parse_string` locates headings (`^(#{1,3})\s+(.+)$`
under `MULTILINE`), filters headings inside code blocks, and for each
heading scans a bounded window of preceding text for heading-scoped
directives (`<!--\s*(\w+)\s*-->`). -/

/-- A heading regex match: start and end offsets of the whole match, the
number of `#` characters (group 1), and the raw group 2 text. -/
structure HeadingMatch where
  hstart : Nat
  hend : Nat
  hashes : Nat
  title : Str
deriving DecidableEq, Repr

/-- Largest index `k ≥ 1` of `ws` holding a non-newline character, if
any: the backtracking of a greedy `\s+` whose remainder must feed `(.+)`. -/
def lastNonNlIdx (ws : Str) : Option Nat :=
  (List.range ws.length).foldl
    (fun best k => if 1 ≤ k ∧ ws.getD k ' ' ≠ '\n' then some k else best) none

/-- Attempt `^(#{1,3})\s+(.+)$` at a line-start position.  `#{1,3}` is a
greedy run of at most three hashes (four or more make every alternative
fail); `\s+` is greedy and may span newlines; `(.+)` (no `DOTALL`) then
needs at least one non-newline character, forcing the backtracking
captured by `lastNonNlIdx` when the string ends in whitespace; `$`
(`MULTILINE`) holds after the greedy `(.+)`.  Returns
`(matchLength, hashCount, group2)`. -/
def headingMatchAt (t : Str) : Option (Nat × Nat × Str) :=
  let hs := t.takeWhile (· = '#')
  if hs.length = 0 ∨ 3 < hs.length then none
  else
    let afterHash := t.drop hs.length
    let ws := afterHash.takeWhile pyIsSpace
    let rest := afterHash.dropWhile pyIsSpace
    if ws = [] then none
    else if rest ≠ [] then
      let g2 := rest.takeWhile (· ≠ '\n')
      some (hs.length + ws.length + g2.length, hs.length, g2)
    else
      match lastNonNlIdx ws with
      | some k =>
        let g2 := (ws.drop k).takeWhile (· ≠ '\n')
        some (hs.length + k + g2.length, hs.length, g2)
      | none => none

/-- The `finditer` scan for headings: the `^` anchor restricts match
attempts to line starts; a match cannot end in a newline, so scanning
resumes in mid-line.  Fuel-driven. -/
def headingScanAux : Nat → Str → Nat → Bool → List HeadingMatch
  | 0, _, _, _ => []
  | fuel + 1, s, posn, atStart =>
    match s with
    | [] => []
    | c :: cs =>
      match (if atStart then headingMatchAt s else none) with
      | some (len, n, g2) =>
        ⟨posn, posn + len, n, g2⟩ :: headingScanAux fuel (s.drop len) (posn + len) false
      | none => headingScanAux fuel cs (posn + 1) (c = '\n')

/-- All heading matches of a document. -/
def headingFinditer (content : Str) : List HeadingMatch :=
  headingScanAux (content.length + 1) content 0 true

/-- Count of non-overlapping ` ``` ` occurrences (fuel-driven). -/
def tickTripleCount : Nat → Str → Nat
  | 0, _ => 0
  | fuel + 1, s =>
    match s with
    | [] => 0
    | _ :: cs =>
      if strStarts ['`', '`', '`'] s then 1 + tickTripleCount fuel (s.drop 3)
      else tickTripleCount fuel cs

/-- `MarkdownDocumentParser._is_in_code_block(text, position)`: an odd
number of ` ``` ` fences before the position means inside a code block. -/
def is_in_code_block (text : Str) (position : Nat) : Bool :=
  tickTripleCount (position + 1) (text.take position) % 2 = 1

/-- Attempt `<!--\s*(\w+)\s*-->` at one position.  Returns
`(directiveWord, rest)`. -/
def directiveAt (s : Str) : Option (Str × Str) :=
  if strStarts "<!--".toList s then
    match takeWord (dropSpaces (s.drop 4)) with
    | some (w, u) =>
      let v := dropSpaces u
      if strStarts "-->".toList v then some (w, v.drop 3) else none
    | none => none
  else none

/-- `DIRECTIVE_PATTERN.findall`: all directive words, left to right.
Fuel-driven. -/
def directiveFindallAux : Nat → Str → List Str
  | 0, _ => []
  | fuel + 1, s =>
    match s with
    | [] => []
    | _ :: cs =>
      match directiveAt s with
      | some (w, rest) => w :: directiveFindallAux fuel rest
      | none => directiveFindallAux fuel cs

/-- All `<!-- word -->` directive words in a text. -/
def directiveFindall (s : Str) : List Str := directiveFindallAux (s.length + 1) s

/-- The attributes accumulated by the directive loop of `parse_string`. -/
structure DirFlags where
  orientation : Orient
  is_addendum : Bool
  exclude_from_toc : Bool
deriving DecidableEq, Repr

/-- One iteration of the directive loop: `landscape`/`portrait` overwrite
the orientation, `addendum` and `notoc` set their flags, anything else is
ignored. -/
def applyDirective (f : DirFlags) (d : Str) : DirFlags :=
  let dl := toLowerStr d
  if dl = "landscape".toList then { f with orientation := .landscape }
  else if dl = "portrait".toList then { f with orientation := .portrait }
  else if dl = "addendum".toList then { f with is_addendum := true }
  else if dl = "notoc".toList then { f with exclude_from_toc := true }
  else f

/-- The directive loop over all matches, starting from the defaults
(portrait, not addendum, in the TOC). -/
def foldDirectives (ds : List Str) : DirFlags :=
  ds.foldl applyDirective ⟨.portrait, false, false⟩

/-- Python slicing `s[a:b]` for non-negative clamped indices. -/
def pySlice (s : Str) (a b : Nat) : Str := (s.take b).drop a

/-- Python `s.find(c, start)` as an `Option`. -/
def findCharFrom (s : Str) (c : Char) (start : Nat) : Option Nat :=
  match (s.drop start).findIdx? (· = c) with
  | some k => some (start + k)
  | none => none

/-- The directive scan window of `parse_string` for heading `i` with
match start `heading_start`: the text from the end of the previous
heading (or the document start), up to the heading start, then truncated
to begin at the last `"\n\n"` occurrence within it when one exists. -/
def directivesTextOf (md : Str) (headings : List HeadingMatch) (i heading_start : Nat) : Str :=
  let directives_start := if i = 0 then 0 else
    match headings.get? (i - 1) with
    | some hp => hp.hend
    | none => 0
  let directives_text := pySlice md directives_start heading_start
  match rfindSub directives_text "\n\n".toList with
  | some idx => directives_text.drop idx
  | none => directives_text

/-- The Python message of the `TypeError` raised when a keyword argument
does not match any `__init__` parameter (CPython 3.10+ wording). -/
def typeErrorMsg : Str :=
  "Section.__init__() got an unexpected keyword argument \x27exclude_from_toc\x27".toList

/-- The `Section(level=..., title=..., content=..., orientation=...,
exclude_from_toc=...)` call of `parse_string`
(`content/markdown_parser.py:143-148`): the snapshot's `Section`
dataclass has no `exclude_from_toc` field, so the generated `__init__`
rejects the keyword and raises `TypeError` before `__post_init__` ever
runs — unconditionally, whatever the other arguments are. -/
def sectionCtorCall (_level : Int) (_title _content : Str) (_orientation : OrientArg)
    (_exclude_from_toc : Bool) : Except Str Sect :=
  .error typeErrorMsg

/-- Build the `i`-th section inside `parse_string`'s heading loop:
slice the section content, compute the directive window, fold the
directives found there, and construct the `Section` (which raises, see
`sectionCtorCall`). -/
def buildSection (md : Str) (headings : List HeadingMatch) (i : Nat) : Except Str Sect :=
  match headings.get? i with
  | none => .error "index out of range".toList
  | some h =>
    let heading_level := h.hashes
    let heading_title := pyStrip h.title
    let heading_start := h.hstart
    let content_end := match headings.get? (i + 1) with
      | some h2 => h2.hstart
      | none => md.length
    let heading_end := match findCharFrom md '\n' heading_start with
      | some j => j
      | none => heading_start + (h.hend - h.hstart)
    let section_content := pyStrip (pySlice md (heading_end + 1) content_end)
    let directives_text := directivesTextOf md headings i heading_start
    let flags := foldDirectives (directiveFindall directives_text)
    let level : Int := if flags.is_addendum then 0 else heading_level
    sectionCtorCall level heading_title section_content (.enum flags.orientation)
      flags.exclude_from_toc

/-- The heading loop of `parse_string`: build sections in order; a raised
`ValueError` (from `Section` construction) propagates. -/
def buildFrom (md : Str) (headings : List HeadingMatch) : Nat → Nat → Except Str (List Sect)
  | 0, _ => .ok []
  | k + 1, i =>
    match buildSection md headings i with
    | .error e => .error e
    | .ok s =>
      match buildFrom md headings k (i + 1) with
      | .error e => .error e
      | .ok rest => .ok (s :: rest)

/-- `MarkdownDocumentParser.parse_string(markdown_content)`. -/
def parse_string (md : Str) : Except Str (List Sect) :=
  let all_headings := headingFinditer md
  let headings := all_headings.filter fun h => is_in_code_block md h.hstart = false
  buildFrom md headings headings.length 0

/-- The parsed heading list of `parse_string`. -/
def parsedHeadings (md : Str) : List HeadingMatch :=
  (headingFinditer md).filter fun h => is_in_code_block md h.hstart = false

example : parse_string "# A\nbody".toList = .error typeErrorMsg := by rfl

example : parse_string "no headings here".toList = .ok [] := by rfl

example :
    foldDirectives (directiveFindall
        (directivesTextOf "<!-- landscape -->\n# A\nbody".toList
          (parsedHeadings "<!-- landscape -->\n# A\nbody".toList) 0 19))
      = ⟨.landscape, false, false⟩ := by decide

/-! ## Claim C1 — Code Shield round-trip -/

/-- C1: the claimed round-trip law `restore_code_blocks ∘
extract_code_blocks = id` for *every* string fails: on the failing input
`"___INLINE_CODE_0___ `x`"` — a string that already contains the text of
the placeholder the extraction then generates for its code span — the
shield/unshield pair returns `` "`x` `x`" ``, not the original string.
The pre-existing placeholder text is replaced as well during
restoration, so round-tripping breaks exactly where the uniqueness of
placeholders is injected from outside. -/
theorem c1_roundtrip_fails_on_placeholder_text :
    restore_code_blocks (extract_code_blocks "___INLINE_CODE_0___ `x`".toList).1
        (extract_code_blocks "___INLINE_CODE_0___ `x`".toList).2
      = "`x` `x`".toList
    ∧ restore_code_blocks (extract_code_blocks "___INLINE_CODE_0___ `x`".toList).1
        (extract_code_blocks "___INLINE_CODE_0___ `x`".toList).2
      ≠ "___INLINE_CODE_0___ `x`".toList := by
  constructor
  · decide
  · decide

/-! ## Claim C4 — TOC tag balance -/

/-- C4: the claimed `<li>`/`</li>` tag balance of the TOC Builder fails
on heading sequences that skip a level.  For an h1 directly followed by
an h3 the output contains 2 opening but 3 closing list-item tags, and
for the spec's own example `[1,3,2,1]` it contains 4 opening but 5
closing list-item tags (the list-container `<ul>`/`</ul>` tags do remain
balanced on these inputs). -/
theorem c4_toc_li_tags_unbalanced_on_level_skip :
    (strCount (build_toc_html [(1, "h1".toList, "Chapter".toList),
          (3, "h3".toList, "Subsection".toList)]) "<li>".toList = 2
      ∧ strCount (build_toc_html [(1, "h1".toList, "Chapter".toList),
          (3, "h3".toList, "Subsection".toList)]) "</li>".toList = 3)
    ∧ (strCount (build_toc_html [(1, "a".toList, "A".toList), (3, "b".toList, "B".toList),
          (2, "c".toList, "C".toList), (1, "d".toList, "D".toList)]) "<li>".toList = 4
      ∧ strCount (build_toc_html [(1, "a".toList, "A".toList), (3, "b".toList, "B".toList),
          (2, "c".toList, "C".toList), (1, "d".toList, "D".toList)]) "</li>".toList = 5) := by
  exact ⟨⟨by decide, by decide⟩, ⟨by decide, by decide⟩⟩

/-! ## Claim C5 — template not found -/

/-- C5 counterexample: the claim that a missing template is *never* an
exception is false for the file-inline directive of
`docco/inline.py`: `process_inlines` on `<!-- inline:"missing.md" -->`
with a filesystem that does not contain the file raises
`FileNotFoundError` instead of leaving the directive in place. -/
theorem c5_counterexample_missing_file_raises :
    process_inlines (fun _ => none) (fun _ _ => .error [])
        "<!-- inline:\"missing.md\" -->".toList "/doc".toList false
      = .error "Inline file not found: missing.md".toList := by rfl

/-- C5 (amended): for the Template Expander of
`docco/content/commands.py`, a template name that cannot be resolved is
non-fatal: `_render_inline` returns the original directive text
unexpanded and unmodified, raising nothing.  (The file-inclusion inline
directive of `docco/inline.py`, by contrast, raises `FileNotFoundError`
for a missing file — see the counterexample.) -/
theorem c5_render_inline_missing_template_keeps_original
    (templates : Str → Option Str) (processRec : Str → Nat → Str) (max_depth : Nat)
    (inline_name : Str) (args : List (Str × Str)) (original : Str) (depth : Nat)
    (h : templates inline_name = none) :
    render_inline templates processRec max_depth inline_name args original depth
      = original := by
  simp [render_inline, h]

/-- C5 witness: the amended theorem applied at a concrete missing
template. -/
theorem c5_render_inline_missing_template_witness :
    render_inline (fun _ => none) (fun r _ => r) 10 "callout".toList []
        "<!-- inline: callout -->content<!-- /inline -->".toList 1
      = "<!-- inline: callout -->content<!-- /inline -->".toList :=
  c5_render_inline_missing_template_keeps_original
    (fun _ => none) (fun r _ => r) 10 "callout".toList []
    "<!-- inline: callout -->content<!-- /inline -->".toList 1 rfl

/-! ## Claim C10 — Section construction invariant -/

/-- C10: constructing a `Section` raises `ValueError` exactly when the
level lies outside `[0,3]`, the title is empty, or the orientation is a
string other than `"portrait"`/`"landscape"`; every successfully
constructed section has level in `[0,3]` and a non-empty title (and, by
the type of `Sect.orientation`, an `Orientation` enum value). -/
theorem c10_section_validation (level : Int) (title content : Str) (number : Option Str)
    (orientation : OrientArg) :
    ((mkSection level title content number orientation).isOk = false ↔
      (level < 0 ∨ 3 < level ∨ title = []
        ∨ ∃ s, orientation = OrientArg.str s ∧ orientationOfValue s = none))
    ∧ (∀ sec, mkSection level title content number orientation = .ok sec →
        0 ≤ sec.level ∧ sec.level ≤ 3 ∧ sec.title ≠ []) := by
  constructor
  · unfold mkSection
    rcases orientation with o | s
    · split_ifs with h1 h2 <;> simp_all [Except.isOk, Except.toBool] <;> tauto
    · rcases hv : orientationOfValue s with _ | o <;>
        split_ifs with h1 h2 <;> simp_all [Except.isOk, Except.toBool] <;> tauto
  · intro sec hsec
    rcases orientation with o | s <;> unfold mkSection at hsec <;>
      split_ifs at hsec with h1 h2
    · cases hsec
      exact ⟨by dsimp only; omega, by dsimp only; omega, h2⟩
    · dsimp only at hsec
      rcases hv : orientationOfValue s with _ | o <;> rw [hv] at hsec
      · cases hsec
      · cases hsec
        exact ⟨by dsimp only; omega, by dsimp only; omega, h2⟩

/-- C10 witness: validation at concrete inputs — a valid section, and
the three rejection causes. -/
theorem c10_section_validation_witness :
    ((mkSection 1 "Intro".toList [] none (.enum .portrait)).isOk = false ↔
      ((1 : Int) < 0 ∨ 3 < (1 : Int) ∨ "Intro".toList = []
        ∨ ∃ s, (OrientArg.enum .portrait) = OrientArg.str s ∧ orientationOfValue s = none))
    ∧ (∀ sec, mkSection 1 "Intro".toList [] none (.enum .portrait) = .ok sec →
        0 ≤ sec.level ∧ sec.level ≤ 3 ∧ sec.title ≠ []) :=
  c10_section_validation 1 "Intro".toList [] none (.enum .portrait)

/-! ## Claim C9 — hierarchical numbering -/

/-- C9: numbering a non-addendum section at level `L ∈ [1,3]` increments
the counter at level `L`, leaves shallower counters unchanged, zeroes
every deeper counter, does not touch the addendum counter, and returns
the dot-joined non-zero counters of levels `1..L`; consequently a fresh
numberer gives sections at levels `[1,2,2,1]` the numbers
`["1","1.1","1.2","2"]`. -/
theorem c9_number_section (st : NumState) (s : Sect)
    (hlen : st.counters.length = 3) (h1 : 1 ≤ s.level) (h3 : s.level ≤ 3) :
    ((number_section st s).1.counters.getD (s.level.toNat - 1) 0
        = st.counters.getD (s.level.toNat - 1) 0 + 1
      ∧ (∀ j, j + 1 < s.level.toNat →
          (number_section st s).1.counters.getD j 0 = st.counters.getD j 0)
      ∧ (∀ j, s.level.toNat ≤ j → (number_section st s).1.counters.getD j 0 = 0)
      ∧ (number_section st s).1.addendum_counter = st.addendum_counter
      ∧ (number_section st s).2
          = List.intercalate ['.']
              ((((number_section st s).1.counters.take s.level.toNat).filter (0 < ·)).map natChars))
    ∧ (number_sections freshNumberer
          [⟨1, ['A'], [], none, .portrait⟩, ⟨2, ['B'], [], none, .portrait⟩,
           ⟨2, ['C'], [], none, .portrait⟩, ⟨1, ['D'], [], none, .portrait⟩]).2.map
          Sect.number
        = [some ['1'], some "1.1".toList, some "1.2".toList, some ['2']] := by
  refine ⟨?_, by decide⟩
  obtain ⟨a, b, c, hnil⟩ : ∃ a b c, st.counters = [a, b, c] := by
    rcases hc : st.counters with _ | ⟨a, _ | ⟨b, _ | ⟨c, _ | _⟩⟩⟩ <;>
      simp [hc] at hlen <;> exact ⟨a, b, c, rfl⟩
  have hl : s.level = 1 ∨ s.level = 2 ∨ s.level = 3 := by omega
  have h0 : ¬s.level = 0 := by omega
  rcases hl with hl | hl | hl <;>
    · simp only [number_section, h0, if_false, hl, hnil]
      norm_num [List.range_succ, List.set, List.getD, List.get?]
      repeat' constructor
      all_goals intro j hj
      all_goals
        match j, hj with
        | 0, hj => first | rfl | omega
        | 1, hj => first | rfl | omega
        | 2, hj => first | rfl | omega
        | n + 3, hj => first | rfl | omega

/-- C9 witness: the per-call description applied at a concrete state and
section. -/
theorem c9_number_section_witness :
    ((number_section ⟨[2, 3, 1], 0⟩ ⟨2, ['T'], [], none, .portrait⟩).1.counters.getD
          ((2 : Int).toNat - 1) 0
        = ([2, 3, 1].getD ((2 : Int).toNat - 1) 0 : Nat) + 1
      ∧ (∀ j, j + 1 < (2 : Int).toNat →
          (number_section ⟨[2, 3, 1], 0⟩ ⟨2, ['T'], [], none, .portrait⟩).1.counters.getD j 0
            = [2, 3, 1].getD j 0)
      ∧ (∀ j, (2 : Int).toNat ≤ j →
          (number_section ⟨[2, 3, 1], 0⟩ ⟨2, ['T'], [], none, .portrait⟩).1.counters.getD j 0 = 0)
      ∧ (number_section ⟨[2, 3, 1], 0⟩ ⟨2, ['T'], [], none, .portrait⟩).1.addendum_counter = 0
      ∧ (number_section ⟨[2, 3, 1], 0⟩ ⟨2, ['T'], [], none, .portrait⟩).2
          = List.intercalate ['.']
              ((((number_section ⟨[2, 3, 1], 0⟩
                      ⟨2, ['T'], [], none, .portrait⟩).1.counters.take
                    (2 : Int).toNat).filter (0 < ·)).map natChars))
    ∧ (number_sections freshNumberer
          [⟨1, ['A'], [], none, .portrait⟩, ⟨2, ['B'], [], none, .portrait⟩,
           ⟨2, ['C'], [], none, .portrait⟩, ⟨1, ['D'], [], none, .portrait⟩]).2.map
          Sect.number
        = [some ['1'], some "1.1".toList, some "1.2".toList, some ['2']] :=
  c9_number_section ⟨[2, 3, 1], 0⟩ ⟨2, ['T'], [], none, .portrait⟩ rfl
    (by decide) (by decide)

/-! ## Claim C8 — last same-kind directive wins -/

/-- Orientation directive keywords as a partial map: the "same kind"
classification used to state the last-occurrence-wins policy. -/
def orientKeyOf (d : Str) : Option Orient :=
  if d = "landscape".toList then some .landscape
  else if d = "portrait".toList then some .portrait
  else none

/-- Pushing a head through `getLast?.getD`: the head only matters for a
singleton. -/
theorem getLastD_cons (t : List Orient) (a d : Orient) :
    (a :: t).getLast?.getD d = t.getLast?.getD a := by
  cases t with
  | nil => rfl
  | cons b bs =>
    rw [List.getLast?_cons_cons]
    rcases h : (b :: bs).getLast? with _ | x
    · exact absurd h (by simp)
    · rfl

/-- Characterization of one step of the directive loop. -/
theorem applyDirective_chars (f : DirFlags) (d : Str) :
    (applyDirective f d).orientation = (orientKeyOf (toLowerStr d)).getD f.orientation
    ∧ ((applyDirective f d).is_addendum = true ↔
        f.is_addendum = true ∨ toLowerStr d = "addendum".toList)
    ∧ ((applyDirective f d).exclude_from_toc = true ↔
        f.exclude_from_toc = true ∨ toLowerStr d = "notoc".toList) := by
  have e1 : "landscape".toList ≠ "addendum".toList := by decide
  have e2 : "portrait".toList ≠ "addendum".toList := by decide
  have e3 : "landscape".toList ≠ "notoc".toList := by decide
  have e4 : "portrait".toList ≠ "notoc".toList := by decide
  have e5 : "addendum".toList ≠ "notoc".toList := by decide
  have e0 : "landscape".toList ≠ "portrait".toList := by decide
  unfold applyDirective orientKeyOf
  by_cases h1 : toLowerStr d = "landscape".toList
  · simp_all
  · by_cases h2 : toLowerStr d = "portrait".toList
    · simp_all
    · by_cases h3 : toLowerStr d = "addendum".toList
      · simp_all
      · by_cases h4 : toLowerStr d = "notoc".toList
        · simp_all
        · simp_all

/-- The directive loop from an arbitrary accumulator: the resulting
orientation is the last orientation keyword (default: the
accumulator's), and the addendum/notoc flags are monotone presence
checks. -/
theorem foldl_applyDirective (ds : List Str) : ∀ f : DirFlags,
    (ds.foldl applyDirective f).orientation
        = ((ds.map toLowerStr).filterMap orientKeyOf).getLast?.getD f.orientation
    ∧ ((ds.foldl applyDirective f).is_addendum = true ↔
        f.is_addendum = true ∨ "addendum".toList ∈ ds.map toLowerStr)
    ∧ ((ds.foldl applyDirective f).exclude_from_toc = true ↔
        f.exclude_from_toc = true ∨ "notoc".toList ∈ ds.map toLowerStr) := by
  induction ds with
  | nil => intro f; simp
  | cons d rest ih =>
    intro f
    obtain ⟨a1, a2, a3⟩ := applyDirective_chars f d
    obtain ⟨i1, i2, i3⟩ := ih (applyDirective f d)
    refine ⟨?_, ?_, ?_⟩
    · rw [List.foldl_cons, i1, List.map_cons, List.filterMap_cons]
      cases hk : orientKeyOf (toLowerStr d) with
      | none => rw [a1, hk]; rfl
      | some o => rw [a1, hk, Option.getD_some, getLastD_cons]
    · rw [List.foldl_cons, List.map_cons]
      rw [i2, a2, List.mem_cons]
      constructor
      · rintro ((h | h) | h)
        · exact Or.inl h
        · exact Or.inr (Or.inl h.symm)
        · exact Or.inr (Or.inr h)
      · rintro (h | h | h)
        · exact Or.inl (Or.inl h)
        · exact Or.inl (Or.inr h.symm)
        · exact Or.inr h
    · rw [List.foldl_cons, List.map_cons]
      rw [i3, a3, List.mem_cons]
      constructor
      · rintro ((h | h) | h)
        · exact Or.inl h
        · exact Or.inr (Or.inl h.symm)
        · exact Or.inr (Or.inr h)
      · rintro (h | h | h)
        · exact Or.inl (Or.inl h)
        · exact Or.inl (Or.inr h.symm)
        · exact Or.inr h

set_option maxHeartbeats 10000000 in
/-- C8: when several heading-scoped directives of the same kind occur in
one scan window, the last wins, while different kinds compose: the
directive loop of `parse_string` (markdown_parser.py:126-137, embedded
as `foldDirectives`), which computes the attributes destined for the
single following heading, yields the *last* orientation keyword of the
window (default portrait), and the addendum/notoc flags independently
record whether their keyword occurs at all; concretely, on the window
text `<!-- landscape -->` then `<!-- portrait -->` the loop ends
portrait, and on `<!-- landscape -->` then `<!-- notoc -->` it ends
landscape with the TOC exclusion set. -/
theorem c8_last_same_kind_directive_wins (ds : List Str) :
    ((foldDirectives ds).orientation
        = ((ds.map toLowerStr).filterMap orientKeyOf).getLast?.getD Orient.portrait
      ∧ ((foldDirectives ds).is_addendum = true ↔ "addendum".toList ∈ ds.map toLowerStr)
      ∧ ((foldDirectives ds).exclude_from_toc = true ↔ "notoc".toList ∈ ds.map toLowerStr))
    ∧ foldDirectives (directiveFindall "<!-- landscape -->\n<!-- portrait -->\n".toList)
        = ⟨Orient.portrait, false, false⟩
    ∧ foldDirectives (directiveFindall "<!-- landscape -->\n<!-- notoc -->\n".toList)
        = ⟨Orient.landscape, false, true⟩ := by
  refine ⟨?_, by decide, by decide⟩
  obtain ⟨g1, g2, g3⟩ := foldl_applyDirective ds ⟨.portrait, false, false⟩
  unfold foldDirectives
  exact ⟨g1, by simpa using g2, by simpa using g3⟩

/-! ## Claims C2, C3 — the iterative expansion driver -/

/-- When every successful expansion of a directive-bearing text again
bears a directive, the loop saturates its entire budget: started at
`iteration` with `fuel` steps remaining (`iteration + fuel ≤
MAX_ITERATIONS`), it performs exactly `fuel` further passes and stops
with directives still present. -/
theorem processLoop_saturates (step : Str → Except Str Str)
    (hstep : ∀ c, has_directives c = true →
      ∃ c', step c = .ok c' ∧ has_directives c' = true) :
    ∀ fuel iteration c, iteration + fuel ≤ MAX_ITERATIONS → has_directives c = true →
      ∃ c', processLoop step fuel iteration c = .ok (iteration + fuel, c')
        ∧ has_directives c' = true := by
  intro fuel
  induction fuel with
  | zero => intro iteration c _ hc; exact ⟨c, rfl, hc⟩
  | succ n ih =>
    intro iteration c hle hc
    obtain ⟨c', hc', hd'⟩ := hstep c hc
    have hcond : has_directives c = true ∧ iteration < MAX_ITERATIONS :=
      ⟨hc, by omega⟩
    obtain ⟨c'', hrec, hd''⟩ := ih (iteration + 1) c' (by omega) hd'
    refine ⟨c'', ?_, hd''⟩
    unfold processLoop
    rw [if_pos hcond, hc']
    dsimp only
    have harith : iteration + 1 + n = iteration + (n + 1) := by omega
    rw [harith] at hrec
    exact hrec

/-- C2: a self-referencing template — modelled as an expansion step
whose every successful application preserves the presence of the inline
directive marker — drives `process_directives_iteratively` through
exactly `MAX_ITERATIONS` (= 10) full passes, never fewer and never more,
after which it raises the fatal max-iterations `ValueError`. -/
theorem c2_self_reference_exhausts_exactly_max_iterations
    (step : Str → Except Str Str) (content : Str)
    (hstep : ∀ c, has_directives c = true →
      ∃ c', step c = .ok c' ∧ has_directives c' = true)
    (h0 : has_directives content = true) :
    ∃ c', processLoop step MAX_ITERATIONS 0 content = .ok (MAX_ITERATIONS, c')
      ∧ process_directives_iteratively step content = .error maxIterMsg := by
  obtain ⟨c', hloop, hd⟩ :=
    processLoop_saturates step hstep MAX_ITERATIONS 0 content (by omega) h0
  rw [Nat.zero_add] at hloop
  refine ⟨c', hloop, ?_⟩
  unfold process_directives_iteratively
  rw [hloop]
  dsimp only
  rw [if_pos ⟨Nat.le_refl _, hd⟩]

/-- C2 witness: an expansion step that re-emits its input verbatim (the
simplest self-referencing template) on a concrete directive-bearing
text. -/
theorem c2_self_reference_witness :
    ∃ c', processLoop (fun c => .ok c) MAX_ITERATIONS 0
          "<!-- inline:\"self_ref.md\" -->".toList
        = .ok (MAX_ITERATIONS, c')
      ∧ process_directives_iteratively (fun c => .ok c)
          "<!-- inline:\"self_ref.md\" -->".toList = .error maxIterMsg :=
  c2_self_reference_exhausts_exactly_max_iterations (fun c => .ok c)
    "<!-- inline:\"self_ref.md\" -->".toList
    (fun c hc => ⟨c, rfl, hc⟩) (by decide)

/-- If some iterate of a pure expansion step within the fuel budget is
free of directive markers, the loop (running under the invariant
`iteration + fuel = MAX_ITERATIONS` maintained by the driver) stops at a
directive-free text. -/
theorem processLoop_stops (step : Str → Str) :
    ∀ fuel iteration c, iteration + fuel = MAX_ITERATIONS →
      (∃ j, j ≤ fuel ∧ has_directives (Nat.iterate step j c) = false) →
      ∃ p, processLoop (fun x => .ok (step x)) fuel iteration c = .ok p
        ∧ has_directives p.2 = false := by
  intro fuel
  induction fuel with
  | zero =>
    intro iteration c _ hex
    obtain ⟨j, hj, hc⟩ := hex
    have hj0 : j = 0 := by omega
    rw [hj0, Function.iterate_zero_apply] at hc
    exact ⟨(iteration, c), rfl, hc⟩
  | succ n ih =>
    intro iteration c hinv hex
    obtain ⟨j, hj, hc⟩ := hex
    by_cases hd : has_directives c = true
    · have hjpos : j ≠ 0 := by
        intro h
        rw [h, Function.iterate_zero_apply] at hc
        rw [hd] at hc
        cases hc
      obtain ⟨j', rfl⟩ : ∃ j', j = j' + 1 := ⟨j - 1, by omega⟩
      have hc' : has_directives (Nat.iterate step j' (step c)) = false := by
        rw [← Function.iterate_succ_apply]
        exact hc
      obtain ⟨p, hp, hfree⟩ := ih (iteration + 1) (step c) (by omega) ⟨j', by omega, hc'⟩
      refine ⟨p, ?_, hfree⟩
      unfold processLoop
      rw [if_pos ⟨hd, by omega⟩]
      exact hp
    · refine ⟨(iteration, c), ?_, by simpa using hd⟩
      unfold processLoop
      rw [if_neg (by tauto)]

/-- When every iterate of a pure expansion step within the fuel budget
still carries a directive marker, the loop performs all its passes and
ends on the corresponding iterate. -/
theorem processLoop_runs_full (step : Str → Str) :
    ∀ fuel iteration c,
      (∀ j, j ≤ fuel → has_directives (Nat.iterate step j c) = true) →
      iteration + fuel ≤ MAX_ITERATIONS →
      processLoop (fun x => .ok (step x)) fuel iteration c
        = .ok (iteration + fuel, Nat.iterate step fuel c) := by
  intro fuel
  induction fuel with
  | zero => intro iteration c _ _; rfl
  | succ n ih =>
    intro iteration c hall hle
    have hc : has_directives c = true := by
      have := hall 0 (by omega)
      rwa [Function.iterate_zero_apply] at this
    have hall' : ∀ j, j ≤ n → has_directives (Nat.iterate step j (step c)) = true := by
      intro j hj
      rw [← Function.iterate_succ_apply]
      exact hall (j + 1) (by omega)
    unfold processLoop
    rw [if_pos ⟨hc, by omega⟩]
    dsimp only
    rw [ih (iteration + 1) (step c) hall' (by omega)]
    rw [Function.iterate_succ_apply]
    have harith : iteration + 1 + n = iteration + (n + 1) := by omega
    rw [harith]

/-- C3 counterexample: a text consisting only of a language block — a
directive marker of the expandable "language" kind — does not trigger
the fatal error: `has_directives` searches only for the
`<!-- inline:` marker, so the driver performs zero passes and returns
the text, language markers still present, with no exception. -/
theorem c3_counterexample_lang_markers_raise_nothing :
    process_directives_iteratively (fun c => .ok c)
        "<!-- lang:EN -->English only<!-- /lang -->".toList
      = .ok "<!-- lang:EN -->English only<!-- /lang -->".toList
    ∧ strContains "<!-- lang:EN -->English only<!-- /lang -->".toList
        "<!-- lang:".toList = true
    ∧ has_directives "<!-- lang:EN -->English only<!-- /lang -->".toList = false :=
  ⟨by rfl, by decide, by decide⟩

/-- C3 (amended): the driver raises the fatal max-iterations
`ValueError` exactly when every iterate of the expansion step up to and
including the `MAX_ITERATIONS`-th still contains an *inline-template*
marker (`<!-- inline:` outside code spans, the only pattern
`has_directives` checks); remaining language-block markers never cause
the error. -/
theorem c3_error_iff_inline_markers_persist (step : Str → Str) (content : Str) :
    process_directives_iteratively (fun c => .ok (step c)) content = .error maxIterMsg
      ↔ ∀ i, i ≤ MAX_ITERATIONS →
          has_directives (Nat.iterate step i content) = true := by
  constructor
  · intro herr
    by_contra hnot
    push_neg at hnot
    obtain ⟨i, hi, hfalse⟩ := hnot
    have hfalse' : has_directives (Nat.iterate step i content) = false :=
      Bool.eq_false_iff.mpr hfalse
    obtain ⟨⟨it, cfin⟩, hp, hfree⟩ :=
      processLoop_stops step MAX_ITERATIONS 0 content (by omega) ⟨i, hi, hfalse'⟩
    unfold process_directives_iteratively at herr
    rw [hp] at herr
    dsimp only at herr
    rw [if_neg (by rintro ⟨_, hcontra⟩; rw [hfree] at hcontra; cases hcontra)] at herr
    cases herr
  · intro hall
    have hloop := processLoop_runs_full step MAX_ITERATIONS 0 content
      (fun j hj => hall j hj) (by omega)
    unfold process_directives_iteratively
    rw [hloop]
    dsimp only
    rw [if_pos ⟨by omega, hall MAX_ITERATIONS (by omega)⟩]

/-! ## Claim C6 — the Language Filter and content outside blocks -/

/-- A pattern starting with a character absent from `s` never matches a
prefix of `s`. -/
theorem strStarts_false_of_forbidden (a : Char) (pr : Str) (s : Str)
    (h : ∀ c ∈ s, c ≠ a) : strStarts (a :: pr) s = false := by
  cases s with
  | nil => rfl
  | cons c cs =>
    have hne : c ≠ a := h c (List.mem_cons_self c cs)
    simp only [strStarts]
    rw [if_neg (fun hh => hne hh.symm)]

/-- Backtick-free text admits no fenced-pattern match. -/
theorem matchFencedAt_none (b : Bool) (s : Str) (h : ∀ c ∈ s, c ≠ '`') :
    matchFencedAt b s = none := by
  have h3 : strStarts ['`', '`', '`'] s = false :=
    strStarts_false_of_forbidden '`' ['`', '`'] s h
  cases s with
  | nil => unfold matchFencedAt; rw [h3]; simp
  | cons c cs =>
    have h3' : strStarts ['`', '`', '`'] cs = false :=
      strStarts_false_of_forbidden '`' ['`', '`'] cs
        (fun x hx => h x (List.mem_cons_of_mem c hx))
    unfold matchFencedAt
    rw [h3]
    simp [h3']

/-- The fenced pass leaves backtick-free text untouched and records
nothing. -/
theorem fencedScanAux_id (b : Bool) (ctr : Nat) (blocks : List (Str × Str)) :
    ∀ s, (∀ c ∈ s, c ≠ '`') →
      fencedScanAux (s.length + 1) b s ctr blocks = (s, ctr, blocks) := by
  intro s
  induction s generalizing b ctr blocks with
  | nil => intro _; rfl
  | cons c cs ih =>
    intro h
    show fencedScanAux (cs.length + 1 + 1) b (c :: cs) ctr blocks = _
    unfold fencedScanAux
    rw [matchFencedAt_none b (c :: cs) h]
    dsimp only
    rw [ih (c = '\n') ctr blocks (fun x hx => h x (List.mem_cons_of_mem c hx))]

/-- Backtick-free text admits no four-backtick inline match. -/
theorem matchInline4_none (s : Str) (h : ∀ c ∈ s, c ≠ '`') :
    matchInline4 s = none := by
  unfold matchInline4
  rw [strStarts_false_of_forbidden '`' ['`', '`', '`'] s h]
  simp

/-- Backtick-free text admits no `n`-backtick inline match (`n ≥ 1`). -/
theorem matchInlineN_none (n : Nat) (hn : n ≠ 0) (s : Str) (h : ∀ c ∈ s, c ≠ '`') :
    matchInlineN n s = none := by
  obtain ⟨m, rfl⟩ : ∃ m, n = m + 1 := ⟨n - 1, by omega⟩
  unfold matchInlineN
  rw [List.replicate_succ]
  rw [strStarts_false_of_forbidden '`' (List.replicate m '`') s h]
  simp

/-- An inline pass whose matcher rejects all backtick-free suffixes
leaves backtick-free text untouched. -/
theorem inlineScanAux_id (matcher : Str → Option (Str × Str))
    (hm : ∀ t, (∀ c ∈ t, c ≠ '`') → matcher t = none)
    (ctr : Nat) (blocks : List (Str × Str)) :
    ∀ s, (∀ c ∈ s, c ≠ '`') →
      inlineScanAux matcher (s.length + 1) s ctr blocks = (s, ctr, blocks) := by
  intro s
  induction s generalizing ctr blocks with
  | nil => intro _; rfl
  | cons c cs ih =>
    intro h
    show inlineScanAux matcher (cs.length + 1 + 1) (c :: cs) ctr blocks = _
    unfold inlineScanAux
    rw [hm (c :: cs) h]
    dsimp only
    rw [ih ctr blocks (fun x hx => h x (List.mem_cons_of_mem c hx))]

/-- The Code Shield is the identity (with an empty placeholder table) on
backtick-free content. -/
theorem extract_code_blocks_id (content : Str) (h : ∀ c ∈ content, c ≠ '`') :
    extract_code_blocks content = (content, []) := by
  unfold extract_code_blocks
  rw [fencedScanAux_id true 0 [] content h]
  dsimp only
  rw [inlineScanAux_id matchInline4 (fun t ht => matchInline4_none t ht) 0 [] content h]
  dsimp only
  rw [inlineScanAux_id (matchInlineN 3) (fun t ht => matchInlineN_none 3 (by omega) t ht)
    0 [] content h]
  dsimp only
  rw [inlineScanAux_id (matchInlineN 2) (fun t ht => matchInlineN_none 2 (by omega) t ht)
    0 [] content h]
  dsimp only
  rw [inlineScanAux_id (matchInlineN 1) (fun t ht => matchInlineN_none 1 (by omega) t ht)
    0 [] content h]

/-- Restoring from an empty placeholder table is the identity. -/
theorem restore_code_blocks_nil (content : Str) :
    restore_code_blocks content [] = content := rfl

/-- A prefix match bounds the pattern length. -/
theorem strStarts_length {p s : Str} (h : strStarts p s = true) : p.length ≤ s.length := by
  induction p generalizing s with
  | nil => simp
  | cons a pr ih =>
    cases s with
    | nil => simp [strStarts] at h
    | cons c cs =>
      simp only [strStarts] at h
      split_ifs at h with hac
      simpa using ih h

/-- `takeWord` only ever drops characters. -/
theorem takeWord_rest_le {s w r : Str} (h : takeWord s = some (w, r)) :
    r.length ≤ s.length := by
  unfold takeWord at h
  dsimp only at h
  split_ifs at h with hw
  cases h
  exact (List.dropWhile_suffix pyIsWord).length_le

/-- A successful language-block opener strictly shrinks the text. -/
theorem langOpenAt_rest_lt {s w r : Str} (h : langOpenAt s = some (w, r)) :
    r.length < s.length := by
  unfold langOpenAt at h
  dsimp only at h
  split_ifs at h with h1 h2
  rcases htw : takeWord ((dropSpaces (s.drop 4)).drop 5) with _ | ⟨ww, u⟩ <;>
    rw [htw] at h
  · cases h
  · dsimp only at h
    split_ifs at h with h3
    cases h
    have hs4 : 4 ≤ s.length := by simpa using strStarts_length h1
    have e1 := (List.dropWhile_suffix pyIsSpace (l := u)).length_le
    have e2 : u.length ≤ ((dropSpaces (s.drop 4)).drop 5).length := takeWord_rest_le htw
    have e3 := (List.dropWhile_suffix pyIsSpace (l := s.drop 4)).length_le
    have e4 := List.length_drop 5 (dropSpaces (s.drop 4))
    have e5 := List.length_drop 4 s
    have e6 := List.length_drop 3 (dropSpaces u)
    unfold dropSpaces at e1 e2 e3 e4 e6 ⊢
    omega

/-- A successful language-block closer strictly shrinks the text. -/
theorem langCloseAt_rest_lt {s r : Str} (h : langCloseAt s = some r) :
    r.length < s.length := by
  unfold langCloseAt at h
  dsimp only at h
  split_ifs at h with h1 h2 h3
  cases h
  have hs4 : 4 ≤ s.length := by simpa using strStarts_length h1
  have e1 := (List.dropWhile_suffix pyIsSpace (l := (dropSpaces (s.drop 4)).drop 5)).length_le
  have e2 := List.length_drop 3 (dropSpaces ((dropSpaces (s.drop 4)).drop 5))
  have e3 := (List.dropWhile_suffix pyIsSpace (l := s.drop 4)).length_le
  have e4 := List.length_drop 5 (dropSpaces (s.drop 4))
  have e5 := List.length_drop 4 s
  unfold dropSpaces at e1 e2 e3 e4 ⊢
  omega

/-- A successful lazy body search strictly shrinks the text. -/
theorem langBody_rest_lt {s b r : Str} (h : langBody s = some (b, r)) :
    r.length < s.length := by
  induction s generalizing b r with
  | nil => cases h
  | cons c cs ih =>
    unfold langBody at h
    rcases hc : langCloseAt (c :: cs) with _ | rest <;> rw [hc] at h
    · rcases hb : langBody cs with _ | ⟨b2, r2⟩ <;> rw [hb] at h
      · simp at h
      · have hr : r = r2 := by cases h; rfl
        rw [hr]
        have hlt := ih hb
        simp only [List.length_cons]
        omega
    · cases h
      exact langCloseAt_rest_lt hc

/-- A successful language-block match strictly shrinks the text. -/
theorem matchLangAt_rest_lt {s code b r : Str} (h : matchLangAt s = some (code, b, r)) :
    r.length < s.length := by
  unfold matchLangAt at h
  rcases ho : langOpenAt s with _ | ⟨w2, t⟩
  · rw [ho] at h
    simp at h
  · rw [ho] at h
    dsimp only at h
    rcases hb : langBody t with _ | ⟨b2, r2⟩
    · rw [hb] at h
      simp at h
    · rw [hb] at h
      have hr : r = r2 := by cases h; rfl
      rw [hr]
      exact lt_trans (langBody_rest_lt hb) (langOpenAt_rest_lt ho)

/-- The language-block substitution scan does not depend on the fuel as
long as the fuel exceeds the text length. -/
theorem langScanAux_fuel (target : Str) :
    ∀ fuel₁ fuel₂ s, s.length < fuel₁ → s.length < fuel₂ →
      langScanAux target fuel₁ s = langScanAux target fuel₂ s := by
  intro fuel₁
  induction fuel₁ with
  | zero => intro fuel₂ s h1 _; omega
  | succ m ih =>
    intro fuel₂ s h1 h2
    obtain ⟨k, rfl⟩ : ∃ k, fuel₂ = k + 1 := ⟨fuel₂ - 1, by omega⟩
    cases s with
    | nil => rfl
    | cons c cs =>
      unfold langScanAux
      dsimp only
      rcases hm : matchLangAt (c :: cs) with _ | ⟨code, body, rest⟩
      · dsimp only
        rw [ih k cs (by simp only [List.length_cons] at h1; omega)
          (by simp only [List.length_cons] at h2; omega)]
      · dsimp only
        have hlt := matchLangAt_rest_lt hm
        simp only [List.length_cons] at h1 h2 hlt
        rw [ih k rest (by omega) (by omega)]

/-- No language-block match can begin at a character other than `<`. -/
theorem matchLangAt_none_head (c : Char) (t : Str) (hc : c ≠ '<') :
    matchLangAt (c :: t) = none := by
  have hs : strStarts "<!--".toList (c :: t) = false := by
    show strStarts ('<' :: "!--".toList) (c :: t) = false
    simp only [strStarts]
    rw [if_neg (fun hh => hc hh.symm)]
  unfold matchLangAt langOpenAt
  rw [hs]
  simp

/-- No closing language marker can begin at a character other than `<`. -/
theorem langCloseAt_none_head (c : Char) (t : Str) (hc : c ≠ '<') :
    langCloseAt (c :: t) = none := by
  have hs : strStarts "<!--".toList (c :: t) = false := by
    show strStarts ('<' :: "!--".toList) (c :: t) = false
    simp only [strStarts]
    rw [if_neg (fun hh => hc hh.symm)]
  unfold langCloseAt
  rw [hs]
  simp

/-- Unfolding equation of the scan at a cons cell. -/
theorem langScanAux_cons (target : Str) (fuel : Nat) (c : Char) (cs : Str) :
    langScanAux target (fuel + 1) (c :: cs)
      = match matchLangAt (c :: cs) with
        | some (code, body, rest) =>
          (if code = target then body else []) ++ langScanAux target fuel rest
        | none => c :: langScanAux target fuel cs := rfl

/-- The language scan is the identity on text free of `<`. -/
theorem langScanAux_clean_id (target : Str) :
    ∀ s, (∀ c ∈ s, c ≠ '<') → langScanAux target (s.length + 1) s = s := by
  intro s
  induction s with
  | nil => intro _; rfl
  | cons c cs ih =>
    intro h
    show langScanAux target (cs.length + 1 + 1) (c :: cs) = c :: cs
    rw [langScanAux_cons, matchLangAt_none_head c cs (h c (List.mem_cons_self c cs))]
    dsimp only
    rw [ih (fun x hx => h x (List.mem_cons_of_mem c hx))]

/-- The language scan passes over a `<`-free prefix unchanged and
continues on the remainder. -/
theorem langScanAux_skip (target b : Str) :
    ∀ a, (∀ c ∈ a, c ≠ '<') →
      langScanAux target ((a ++ b).length + 1) (a ++ b)
        = a ++ langScanAux target (b.length + 1) b := by
  intro a
  induction a with
  | nil => intro _; simp
  | cons c a2 ih =>
    intro h
    show langScanAux target ((a2 ++ b).length + 1 + 1) (c :: (a2 ++ b)) = _
    rw [langScanAux_cons, matchLangAt_none_head c (a2 ++ b) (h c (List.mem_cons_self c a2))]
    dsimp only
    rw [ih (fun x hx => h x (List.mem_cons_of_mem c hx))]
    simp

/-- The lazy body search consumes a `<`-free body verbatim and stops at
the closing marker. -/
theorem langBody_through (post : Str) :
    ∀ body, (∀ c ∈ body, c ≠ '<') →
      langBody (body ++ ("<!-- /lang -->".toList ++ post)) = some (body, post) := by
  intro body
  induction body with
  | nil => intro _; rfl
  | cons c b2 ih =>
    intro h
    show langBody (c :: (b2 ++ ("<!-- /lang -->".toList ++ post))) = some (c :: b2, post)
    unfold langBody
    rw [langCloseAt_none_head c _ (h c (List.mem_cons_self c b2))]
    dsimp only
    rw [ih (fun x hx => h x (List.mem_cons_of_mem c hx))]
    rfl

/-- A word character is neither an angle bracket nor a backtick. -/
theorem pyIsWord_clean {c : Char} (h : pyIsWord c = true) : c ≠ '<' ∧ c ≠ '`' := by
  constructor <;> intro he <;> rw [he] at h <;> exact absurd h (by decide)

/-- Greedy `\w+` captures exactly a non-empty word run that is followed
by a space. -/
theorem takeWord_word_space (code rs : Str) (hne : code ≠ [])
    (hw : ∀ c ∈ code, pyIsWord c = true) :
    takeWord (code ++ (' ' :: rs)) = some (code, ' ' :: rs) := by
  have hkey : ∀ cs : Str, (∀ c ∈ cs, pyIsWord c = true) →
      (cs ++ (' ' :: rs)).takeWhile pyIsWord = cs
      ∧ (cs ++ (' ' :: rs)).dropWhile pyIsWord = ' ' :: rs := by
    intro cs
    induction cs with
    | nil =>
      intro _
      refine ⟨?_, ?_⟩
      · show List.takeWhile pyIsWord (' ' :: rs) = []
        rw [List.takeWhile_cons, if_neg (by decide)]
      · show List.dropWhile pyIsWord (' ' :: rs) = ' ' :: rs
        rw [List.dropWhile_cons, if_neg (by decide)]
    | cons c cs2 ih =>
      intro h
      have hc : pyIsWord c = true := h c (List.mem_cons_self c cs2)
      obtain ⟨ht, hd⟩ := ih (fun x hx => h x (List.mem_cons_of_mem c hx))
      refine ⟨?_, ?_⟩
      · show List.takeWhile pyIsWord (c :: (cs2 ++ (' ' :: rs))) = c :: cs2
        rw [List.takeWhile_cons, if_pos hc, ht]
      · show List.dropWhile pyIsWord (c :: (cs2 ++ (' ' :: rs))) = ' ' :: rs
        rw [List.dropWhile_cons, if_pos hc, hd]
  obtain ⟨ht, hd⟩ := hkey code hw
  unfold takeWord
  dsimp only
  rw [ht, hd, if_neg hne]

/-- Reduction of the opener at a canonical block head: everything before
the language code is concrete, leaving the `\w+` capture and the closer
check. -/
theorem langOpenAt_key (code X : Str) :
    langOpenAt ('<' :: ("!-- lang:".toList ++ (code ++ (" -->".toList ++ X))))
      = match takeWord (code ++ (' ' :: ("-->".toList ++ X))) with
        | some (w, u) =>
          if strStarts "-->".toList (dropSpaces u) then some (w, (dropSpaces u).drop 3)
          else none
        | none => none := rfl

/-- The opener of a canonical block captures exactly its word-character
code. -/
theorem langOpenAt_block (code X : Str) (hne : code ≠ [])
    (hw : ∀ c ∈ code, pyIsWord c = true) :
    langOpenAt ('<' :: ("!-- lang:".toList ++ (code ++ (" -->".toList ++ X))))
      = some (code, X) := by
  rw [langOpenAt_key code X, takeWord_word_space code ("-->".toList ++ X) hne hw]
  rfl

/-- A full language block with any word-character code matches at its
opening `<`, capturing exactly its code and body. -/
theorem matchLangAt_mk (code body tail : Str) (hne : code ≠ [])
    (hw : ∀ c ∈ code, pyIsWord c = true) (hb : ∀ c ∈ body, c ≠ '<') :
    matchLangAt ('<' :: ("!-- lang:".toList ++ (code ++ (" -->".toList
        ++ (body ++ ("<!-- /lang -->".toList ++ tail))))))
      = some (code, body, tail) := by
  unfold matchLangAt
  rw [langOpenAt_block code (body ++ ("<!-- /lang -->".toList ++ tail)) hne hw]
  dsimp only
  rw [langBody_through tail body hb]
  rfl

/-- One scan step over a whole language block: the block is replaced by
its body (matching target) or dropped (other target), and scanning
continues after the block. -/
theorem langScanAux_block_step (target code body tail : Str) (hne : code ≠ [])
    (hw : ∀ c ∈ code, pyIsWord c = true) (hb : ∀ c ∈ body, c ≠ '<') :
    langScanAux target
        (('<' :: ("!-- lang:".toList ++ (code ++ (" -->".toList
          ++ (body ++ ("<!-- /lang -->".toList ++ tail)))))).length + 1)
        ('<' :: ("!-- lang:".toList ++ (code ++ (" -->".toList
          ++ (body ++ ("<!-- /lang -->".toList ++ tail))))))
      = (if code = target then body else [])
          ++ langScanAux target (tail.length + 1) tail := by
  show langScanAux target
      ((("!-- lang:".toList ++ (code ++ (" -->".toList
        ++ (body ++ ("<!-- /lang -->".toList ++ tail))))).length + 1) + 1)
      ('<' :: ("!-- lang:".toList ++ (code ++ (" -->".toList
        ++ (body ++ ("<!-- /lang -->".toList ++ tail)))))) = _
  rw [langScanAux_cons, matchLangAt_mk code body tail hne hw hb]
  dsimp only
  rw [langScanAux_fuel target
    (("!-- lang:".toList ++ (code ++ (" -->".toList
      ++ (body ++ ("<!-- /lang -->".toList ++ tail))))).length + 1)
    (tail.length + 1) tail (by simp; omega) (by omega)]

/-- Well-formedness of one block segment `(code, body, tail)`: a
non-empty word-character language code, and a body and following free
text containing neither `<` nor a backtick. -/
abbrev segOk (s : Str × Str × Str) : Prop :=
  s.1 ≠ [] ∧ (∀ c ∈ s.1, pyIsWord c = true)
    ∧ (∀ c ∈ s.2.1, c ≠ '<' ∧ c ≠ '`') ∧ (∀ c ∈ s.2.2, c ≠ '<' ∧ c ≠ '`')

/-- A document suffix made of language blocks: each segment
`(code, body, tail)` contributes the block
`<!-- lang:code -->body<!-- /lang -->` followed by the free text
`tail`. -/
def docBlocks : List (Str × Str × Str) → Str
  | [] => []
  | (code, body, tail) :: segs =>
    '<' :: ("!-- lang:".toList ++ (code ++ (" -->".toList
      ++ (body ++ ("<!-- /lang -->".toList ++ (tail ++ docBlocks segs))))))

/-- The text the substitution pass keeps of `docBlocks`: each body
survives exactly when its code is the target language, the free text
always. -/
def docKept (target : Str) : List (Str × Str × Str) → Str
  | [] => []
  | (code, body, tail) :: segs =>
    (if code = target then body else []) ++ (tail ++ docKept target segs)

/-- A well-formed block list contains no backtick. -/
theorem docBlocks_no_tick :
    ∀ segs : List (Str × Str × Str), (∀ s ∈ segs, segOk s) →
      ∀ c ∈ docBlocks segs, c ≠ '`' := by
  intro segs
  induction segs with
  | nil => intro _ c hc; simp [docBlocks] at hc
  | cons seg rest ih =>
    intro h
    obtain ⟨code, body, tail⟩ := seg
    obtain ⟨hne, hw, hb, htl⟩ := h (code, body, tail) (List.mem_cons_self _ _)
    intro c hc
    rw [show docBlocks ((code, body, tail) :: rest)
        = '<' :: ("!-- lang:".toList ++ (code ++ (" -->".toList
          ++ (body ++ ("<!-- /lang -->".toList ++ (tail ++ docBlocks rest))))))
      from rfl] at hc
    simp only [List.mem_cons, List.mem_append] at hc
    rcases hc with rfl | hc | hc | hc | hc | hc | hc | hc
    · decide
    · exact (by decide : ∀ x ∈ "!-- lang:".toList, x ≠ '`') c hc
    · exact (pyIsWord_clean (hw c hc)).2
    · exact (by decide : ∀ x ∈ " -->".toList, x ≠ '`') c hc
    · exact (hb c hc).2
    · exact (by decide : ∀ x ∈ "<!-- /lang -->".toList, x ≠ '`') c hc
    · exact (htl c hc).2
    · exact ih (fun s hs => h s (List.mem_cons_of_mem _ hs)) c hc

/-- The substitution scan maps a well-formed block list to exactly the
kept text. -/
theorem langScanAux_doc (target : Str) :
    ∀ segs : List (Str × Str × Str), (∀ s ∈ segs, segOk s) →
      langScanAux target ((docBlocks segs).length + 1) (docBlocks segs)
        = docKept target segs := by
  intro segs
  induction segs with
  | nil => intro _; rfl
  | cons seg rest ih =>
    intro h
    obtain ⟨code, body, tail⟩ := seg
    obtain ⟨hne, hw, hb, htl⟩ := h (code, body, tail) (List.mem_cons_self _ _)
    show langScanAux target
        (('<' :: ("!-- lang:".toList ++ (code ++ (" -->".toList
          ++ (body ++ ("<!-- /lang -->".toList
            ++ (tail ++ docBlocks rest))))))).length + 1)
        ('<' :: ("!-- lang:".toList ++ (code ++ (" -->".toList
          ++ (body ++ ("<!-- /lang -->".toList ++ (tail ++ docBlocks rest)))))))
      = (if code = target then body else []) ++ (tail ++ docKept target rest)
    rw [langScanAux_block_step target code body (tail ++ docBlocks rest) hne hw
      (fun c hc => (hb c hc).1)]
    rw [langScanAux_skip target (docBlocks rest) tail (fun c hc => (htl c hc).1)]
    rw [ih (fun s hs => h s (List.mem_cons_of_mem _ hs))]

/-- C6 counterexample: on content with no language blocks at all (so the
entire input is "outside any language block"), the filter still rewrites
the text: `"a\n\n\n\nb"` becomes `"a\n\nb\n"` — the newline run is
collapsed and a trailing newline appended — so the maximal outside
substring does not appear unmodified in the output. -/
theorem c6_counterexample_outside_text_rewritten :
    filter_content_by_language "a\n\n\n\nb".toList "EN".toList = "a\n\nb\n".toList
    ∧ strContains (filter_content_by_language "a\n\n\n\nb".toList "EN".toList)
        "a\n\n\n\nb".toList = false :=
  ⟨by decide, by decide⟩

/-- C6 (amended): content outside language blocks is preserved verbatim
through language-block substitution and is modified only by the filter's
final cleanup (`langCleanup`: runs of three or more newlines collapse to
two, and the result is stripped with one trailing newline appended).
For any document `lead ++ docBlocks segs` — a backtick- and marker-free
leading text followed by any number of language blocks with arbitrary
word-character codes, each followed by backtick- and marker-free free
text — the output is exactly the cleanup of the lead and, per block, the
body kept (code = target) or dropped (code ≠ target) together with its
following free text; with no blocks (`segs = []`) a document maps to
exactly its own cleanup. -/
theorem c6_outside_blocks_modified_only_by_cleanup
    (lead target : Str) (segs : List (Str × Str × Str))
    (hlead : ∀ c ∈ lead, c ≠ '<' ∧ c ≠ '`')
    (hsegs : ∀ s ∈ segs, segOk s) :
    filter_content_by_language (lead ++ docBlocks segs) target
      = langCleanup (lead ++ docKept target segs) := by
  have htick : ∀ c ∈ lead ++ docBlocks segs, c ≠ '`' := by
    intro c hc
    rcases List.mem_append.mp hc with hc | hc
    · exact (hlead c hc).2
    · exact docBlocks_no_tick segs hsegs c hc
  unfold filter_content_by_language
  rw [extract_code_blocks_id _ htick]
  dsimp only
  rw [restore_code_blocks_nil]
  rw [langScanAux_skip target (docBlocks segs) lead (fun c hc => (hlead c hc).1)]
  rw [langScanAux_doc target segs hsegs]

/-- C6 witness: the amended theorem applied at the spec's own two-block,
two-language scenario, together with the concrete output it evaluates
to. -/
theorem c6_outside_blocks_witness :
    filter_content_by_language
        ("Shared\n".toList ++ docBlocks
          [("EN".toList, "English text.".toList, "\n".toList),
           ("DE".toList, "Deutscher Text.".toList, "\nTail".toList)])
        "EN".toList
      = langCleanup ("Shared\n".toList ++ docKept "EN".toList
          [("EN".toList, "English text.".toList, "\n".toList),
           ("DE".toList, "Deutscher Text.".toList, "\nTail".toList)])
    ∧ langCleanup ("Shared\n".toList ++ docKept "EN".toList
          [("EN".toList, "English text.".toList, "\n".toList),
           ("DE".toList, "Deutscher Text.".toList, "\nTail".toList)])
        = "Shared\nEnglish text.\n\nTail\n".toList :=
  ⟨c6_outside_blocks_modified_only_by_cleanup "Shared\n".toList "EN".toList
    [("EN".toList, "English text.".toList, "\n".toList),
     ("DE".toList, "Deutscher Text.".toList, "\nTail".toList)]
    (by decide) (by decide), by decide⟩

/-! ## Claim C7 — the heading-scoped directive scan window -/

/-- Following the spec's words: the scan window for "directives preceding
heading `i`" is the text strictly between the end of heading `i−1` (or
the document start for `i = 0`) and the start of heading `i`.  Stated
over the parser's (code-block-filtered) heading list. -/
def specWindow (md : Str) (headings : List HeadingMatch) (i : Nat) : Str :=
  let lo : Nat := if i = 0 then 0 else
    match headings.get? (i - 1) with
    | some hp => hp.hend
    | none => 0
  let hi : Nat := match headings.get? i with
    | some h => h.hstart
    | none => md.length
  pySlice md lo hi

/-- Truncation of a window at the last blank line: the suffix starting
at the last occurrence of two consecutive newlines, when there is one. -/
def truncateAtLastBlank (w : Str) : Str :=
  match rfindSub w "\n\n".toList with
  | some idx => w.drop idx
  | none => w

/-- The code's directive window is the spec's window truncated at its
last blank line. -/
theorem directivesTextOf_eq_truncated (md : Str) (headings : List HeadingMatch)
    (i : Nat) (h : HeadingMatch) (hget : headings.get? i = some h) :
    directivesTextOf md headings i h.hstart
      = truncateAtLastBlank (specWindow md headings i) := by
  unfold directivesTextOf truncateAtLastBlank specWindow
  rw [hget]

/-- On every heading-bearing document, `parse_string` raises the
`TypeError` of `sectionCtorCall` at its first section; on a document
with no (surviving) headings it returns the empty list. -/
theorem parse_string_raises (md : Str) :
    parse_string md
      = if parsedHeadings md = [] then .ok [] else .error typeErrorMsg := by
  show buildFrom md (parsedHeadings md) (parsedHeadings md).length 0 = _
  cases parsedHeadings md with
  | nil => rfl
  | cons h t =>
    rw [if_neg (by simp)]
    rfl

/-- C7 counterexample: the claim fails twice over on
`"<!-- landscape -->\n\nfiller\n\n# A"`.  The landscape directive lies
inside the spec's scan window for heading 0 (the full text before the
heading), but the window the code actually scans — truncated at the last
blank line — contains no directive at all; and in any case no directive
is ever applied to the following heading, because `parse_string` raises
the `exclude_from_toc` `TypeError` at the `Section` construction instead
of producing a section. -/
theorem c7_counterexample_directive_in_window_ignored :
    directiveFindall (specWindow "<!-- landscape -->\n\nfiller\n\n# A".toList
        (parsedHeadings "<!-- landscape -->\n\nfiller\n\n# A".toList) 0)
      = ["landscape".toList]
    ∧ directiveFindall (truncateAtLastBlank
        (specWindow "<!-- landscape -->\n\nfiller\n\n# A".toList
          (parsedHeadings "<!-- landscape -->\n\nfiller\n\n# A".toList) 0)) = []
    ∧ parse_string "<!-- landscape -->\n\nfiller\n\n# A".toList = .error typeErrorMsg :=
  ⟨by decide, by decide, by rfl⟩

/-- C7 (amended): the window `parse_string` scans for the directives of
heading `i` is the spec's strictly-between-headings window *truncated to
start at its last blank line* (the last `"\n\n"` occurrence) when one
exists — directives before that blank line are ignored; and in this
snapshot no directive is ever applied to any heading at all, because
`parse_string` raises the `exclude_from_toc` `TypeError` at its first
`Section` construction, returning sections only for heading-free
documents (as the empty list). -/
theorem c7_directives_scanned_in_truncated_window
    (md : Str) (headings : List HeadingMatch) (i : Nat) (h : HeadingMatch)
    (hget : headings.get? i = some h) :
    directivesTextOf md headings i h.hstart
        = truncateAtLastBlank (specWindow md headings i)
    ∧ ∀ md2 : Str, parse_string md2
        = if parsedHeadings md2 = [] then .ok [] else .error typeErrorMsg :=
  ⟨directivesTextOf_eq_truncated md headings i h hget,
   fun md2 => parse_string_raises md2⟩

/-- C7 witness: the amended characterization applied to a concrete
document at its actual parsed heading. -/
theorem c7_directives_window_witness :
    parsedHeadings "filler\n\n<!-- landscape -->\n# A\nbody".toList
        = [⟨27, 30, 1, ['A']⟩]
    ∧ (directivesTextOf "filler\n\n<!-- landscape -->\n# A\nbody".toList
          [(⟨27, 30, 1, ['A']⟩ : HeadingMatch)] 0
          (⟨27, 30, 1, ['A']⟩ : HeadingMatch).hstart
        = truncateAtLastBlank (specWindow "filler\n\n<!-- landscape -->\n# A\nbody".toList
            [(⟨27, 30, 1, ['A']⟩ : HeadingMatch)] 0)
      ∧ ∀ md2 : Str, parse_string md2
          = if parsedHeadings md2 = [] then .ok [] else .error typeErrorMsg) :=
  ⟨by decide,
   c7_directives_scanned_in_truncated_window
     "filler\n\n<!-- landscape -->\n# A\nbody".toList
     [⟨27, 30, 1, ['A']⟩] 0 ⟨27, 30, 1, ['A']⟩ rfl⟩
